import Mathlib

/-!
Verification of the `c2FmZQ/ech` library (Encrypted Client Hello, Split Mode)
against its natural-language specification.

Bytes are modelled as `Nat` values; every byte produced by the Go code is an
element of `0..255` and theorems that consume arbitrary byte strings carry
that bound explicitly where the statement needs it.  Failing operations are
modelled with `Option`/`Except`.  The reader combinators below mirror the
semantics of `golang.org/x/crypto/cryptobyte`: each read either consumes a
fixed amount of input and returns the remainder, or fails.
-/

set_option maxRecDepth 4000

namespace ECH

/-- Read one byte (cryptobyte `ReadUint8`). -/
def readU8 : List Nat → Option (Nat × List Nat)
  | [] => none
  | b :: r => some (b, r)

/-- Read a big-endian 16-bit value (cryptobyte `ReadUint16`). -/
def readU16 : List Nat → Option (Nat × List Nat)
  | a :: b :: r => some (a * 256 + b, r)
  | _ => none

/-- Read a big-endian 24-bit value (cryptobyte `ReadUint24`). -/
def readU24 : List Nat → Option (Nat × List Nat)
  | a :: b :: c :: r => some (a * 65536 + b * 256 + c, r)
  | _ => none

/-- Read exactly `n` bytes (cryptobyte `ReadBytes`). -/
def readBytes (n : Nat) (s : List Nat) : Option (List Nat × List Nat) :=
  if n ≤ s.length then some (s.take n, s.drop n) else none

/-- Read a `uint8`-length-prefixed field (cryptobyte `ReadUint8LengthPrefixed`). -/
def readU8Prefixed (s : List Nat) : Option (List Nat × List Nat) := do
  let (n, r) ← readU8 s
  readBytes n r

/-- Read a `uint16`-length-prefixed field (cryptobyte `ReadUint16LengthPrefixed`). -/
def readU16Prefixed (s : List Nat) : Option (List Nat × List Nat) := do
  let (n, r) ← readU16 s
  readBytes n r

/-- Read a `uint24`-length-prefixed field (cryptobyte `ReadUint24LengthPrefixed`). -/
def readU24Prefixed (s : List Nat) : Option (List Nat × List Nat) := do
  let (n, r) ← readU24 s
  readBytes n r

/-- Serialize one byte (`AddUint8`; the Go value has type `uint8`). -/
def u8 (v : Nat) : List Nat := [v % 256]

/-- Serialize a big-endian 16-bit value (`AddUint16`). -/
def u16be (v : Nat) : List Nat := [v / 256 % 256, v % 256]

/-- Serialize a big-endian 24-bit value (`AddUint24`). -/
def u24be (v : Nat) : List Nat := [v / 65536 % 256, v / 256 % 256, v % 256]

/-- `AddUint8LengthPrefixed`: the builder fails when the child is too long. -/
def u8Pre (b : List Nat) : Option (List Nat) :=
  if b.length < 256 then some (b.length :: b) else none

/-- `AddUint16LengthPrefixed`. -/
def u16Pre (b : List Nat) : Option (List Nat) :=
  if b.length < 65536 then some (u16be b.length ++ b) else none

/-- `AddUint24LengthPrefixed`. -/
def u24Pre (b : List Nat) : Option (List Nat) :=
  if b.length < 16777216 then some (u24be b.length ++ b) else none

theorem u16be_eq (v : Nat) (hv : v < 65536) : u16be v = [v / 256, v % 256] := by
  unfold u16be
  have : v / 256 < 256 := by omega
  simp [Nat.mod_eq_of_lt this]

theorem readU16_u16be (v : Nat) (hv : v < 65536) (r : List Nat) :
    readU16 (u16be v ++ r) = some (v, r) := by
  rw [u16be_eq v hv]
  simp [readU16]
  omega

theorem readU8_u8 (v : Nat) (hv : v < 256) (r : List Nat) :
    readU8 (u8 v ++ r) = some (v, r) := by
  simp [u8, readU8, Nat.mod_eq_of_lt hv]

theorem readBytes_exact (b r : List Nat) : readBytes b.length (b ++ r) = some (b, r) := by
  simp [readBytes, List.take_append, List.drop_append]

theorem readU8Prefixed_u8Pre (b whole r : List Nat) (h : u8Pre b = some whole) :
    readU8Prefixed (whole ++ r) = some (b, r) := by
  unfold u8Pre at h
  split at h
  · cases h
    simpa [readU8Prefixed, readU8] using readBytes_exact b r
  · cases h

theorem readU16Prefixed_u16Pre (b whole r : List Nat) (h : u16Pre b = some whole) :
    readU16Prefixed (whole ++ r) = some (b, r) := by
  unfold u16Pre at h
  split at h
  next hlen =>
    cases h
    rw [readU16Prefixed, List.append_assoc]
    rw [readU16_u16be b.length (by omega) (b ++ r)]
    simpa using readBytes_exact b r
  · cases h

theorem readU24Prefixed_u24Pre (b whole r : List Nat) (h : u24Pre b = some whole) :
    readU24Prefixed (whole ++ r) = some (b, r) := by
  unfold u24Pre at h
  split at h
  next hlen =>
    cases h
    unfold readU24Prefixed readU24 u24be
    have h1 : b.length / 65536 < 256 := by omega
    have h2 : b.length / 256 % 256 = b.length / 256 % 256 := rfl
    simp only [Nat.mod_eq_of_lt h1, List.cons_append, List.nil_append, Option.bind_eq_bind,
      Option.some_bind]
    have : b.length / 65536 * 65536 + b.length / 256 % 256 * 256 + b.length % 256 = b.length := by
      omega
    rw [this]
    simpa using readBytes_exact b r
  · cases h

end ECH

namespace ECH

/-! ### ECH Config codec (`config.go`)

`Config` is a serialized ECH Config (raw bytes).  `ConfigSpec` is the parsed
structure.  Key generation draws an X25519 key pair from the system RNG; the
serialization only depends on the *public key bytes*, which we take as a
parameter (X25519 public keys are 32 bytes). -/

structure CipherSuite where
  KDF : Nat
  AEAD : Nat
deriving DecidableEq, Repr

structure ConfigSpec where
  Version : Nat
  ID : Nat
  KEM : Nat
  PublicKey : List Nat
  CipherSuites : List CipherSuite
  MinimumNameLength : Nat
  PublicName : List Nat
deriving DecidableEq, Repr

/-- The cipher-suite loop of `Config.Spec`: while the field is not empty, read
`kdf u16` then `aead u16`; a 1-, 2- or 3-byte remainder is a decode error. -/
def readCipherSuites : List Nat → Option (List CipherSuite)
  | [] => some []
  | a :: b :: c :: d :: r => (readCipherSuites r).map (⟨a * 256 + b, c * 256 + d⟩ :: ·)
  | _ => none

/-- `Config.Spec` (config.go): parse a serialized ECH Config.  The trailing
`extensions` field is never read and no end-of-input check is performed. -/
def Config.Spec (cfg : List Nat) : Option ConfigSpec := do
  let (version, s0) ← readU16 cfg
  let (ss, _) ← readU16Prefixed s0
  let (id, s1) ← readU8 ss
  let (kem, s2) ← readU16 s1
  let (pk, s3) ← readU16Prefixed s2
  let (cs, s4) ← readU16Prefixed s3
  let suites ← readCipherSuites cs
  let (minName, s5) ← readU8 s4
  let (pn, _) ← readU8Prefixed s5
  pure { Version := version, ID := id, KEM := kem, PublicKey := pk,
         CipherSuites := suites, MinimumNameLength := minName, PublicName := pn }

/-- `ConfigSpec.Bytes` (config.go): serialize an ECH Config.  Note that the
`maximum_name_length` byte is recomputed as `min(len(PublicName)+16, 255)`
rather than taken from the `MinimumNameLength` field, and a zero-length
`extensions` field is appended. -/
def ConfigSpec.Bytes (c : ConfigSpec) : Option (List Nat) :=
  if c.PublicName.length = 0 ∨ c.PublicName.length > 255 then none else do
  let pk ← u16Pre c.PublicKey
  let suites ← u16Pre ((c.CipherSuites.map fun cs => u16be cs.KDF ++ u16be cs.AEAD).flatten)
  let pn ← u8Pre c.PublicName
  let body := u8 c.ID ++ u16be c.KEM ++ pk ++ suites ++
    u8 (min (c.PublicName.length + 16) 255) ++ pn ++ u16be 0
  let whole ← u16Pre body
  pure (u16be c.Version ++ whole)

/-- `NewConfig` (config.go): generate an ECH Config for `id` and `publicName`
with the baseline suite DHKEM-X25519-HKDF-SHA256 / HKDF-SHA256 /
ChaCha20Poly1305.  `pubKeyBytes` stands for `privKey.PublicKey().Bytes()`. -/
def NewConfig (id : Nat) (publicName pubKeyBytes : List Nat) : Option (List Nat) :=
  if publicName.length = 0 ∨ publicName.length > 255 then none else
  ConfigSpec.Bytes
    { Version := 0xfe0d, ID := id, KEM := 0x0020, PublicKey := pubKeyBytes,
      CipherSuites := [⟨0x0001, 0x0003⟩],
      MinimumNameLength := min (publicName.length + 16) 255, PublicName := publicName }

/-- The ConfigSpec built by `NewConfig`. -/
def newConfigSpec (id : Nat) (publicName pubKeyBytes : List Nat) : ConfigSpec :=
  { Version := 0xfe0d, ID := id, KEM := 0x0020, PublicKey := pubKeyBytes,
    CipherSuites := [⟨0x0001, 0x0003⟩],
    MinimumNameLength := min (publicName.length + 16) 255, PublicName := publicName }

theorem u8Pre_eq_some {b w : List Nat} (h : u8Pre b = some w) :
    w = b.length :: b ∧ b.length < 256 := by
  unfold u8Pre at h
  split at h
  · cases h; exact ⟨rfl, by assumption⟩
  · cases h

theorem u16Pre_eq_some {b w : List Nat} (h : u16Pre b = some w) :
    w = u16be b.length ++ b ∧ b.length < 65536 := by
  unfold u16Pre at h
  split at h
  · cases h; exact ⟨rfl, by assumption⟩
  · cases h

theorem readCipherSuites_roundtrip (suites : List CipherSuite)
    (h : ∀ s ∈ suites, s.KDF < 65536 ∧ s.AEAD < 65536) :
    readCipherSuites ((suites.map fun cs => u16be cs.KDF ++ u16be cs.AEAD).flatten)
      = some suites := by
  induction suites with
  | nil => rfl
  | cons s rest ih =>
    have hs := h s (by simp)
    have hrest := ih fun x hx => h x (by simp [hx])
    simp only [List.map_cons, List.flatten_cons]
    rw [u16be_eq s.KDF hs.1, u16be_eq s.AEAD hs.2]
    have e1 : s.KDF / 256 * 256 + s.KDF % 256 = s.KDF := by omega
    have e2 : s.AEAD / 256 * 256 + s.AEAD % 256 = s.AEAD := by omega
    simp only [List.cons_append, List.nil_append, readCipherSuites, e1, e2, hrest,
      Option.map_some, List.append_eq, List.nil_append]
    rfl

theorem spec_bytes_roundtrip (c : ConfigSpec) (conf : List Nat)
    (hb : ConfigSpec.Bytes c = some conf)
    (hv : c.Version < 65536) (hid : c.ID < 256) (hkem : c.KEM < 65536)
    (hsuites : ∀ s ∈ c.CipherSuites, s.KDF < 65536 ∧ s.AEAD < 65536)
    (hmin : c.MinimumNameLength = min (c.PublicName.length + 16) 255) :
    Config.Spec conf = some c := by
  unfold ConfigSpec.Bytes at hb
  split at hb
  · cases hb
  next hguard =>
  simp only [Option.bind_eq_bind] at hb
  cases hpk : u16Pre c.PublicKey with
  | none => rw [hpk] at hb; cases hb
  | some pkw =>
  rw [hpk] at hb
  cases hsw : u16Pre ((c.CipherSuites.map fun cs => u16be cs.KDF ++ u16be cs.AEAD).flatten) with
  | none => rw [hsw] at hb; cases hb
  | some sw =>
  rw [hsw] at hb
  cases hpn : u8Pre c.PublicName with
  | none => rw [hpn] at hb; cases hb
  | some pnw =>
  rw [hpn] at hb
  simp only [Option.some_bind] at hb
  cases hwhole : u16Pre (u8 c.ID ++ u16be c.KEM ++ pkw ++ sw ++
      u8 (min (c.PublicName.length + 16) 255) ++ pnw ++ u16be 0) with
  | none => rw [hwhole] at hb; cases hb
  | some whole =>
  rw [hwhole] at hb
  simp only [Option.some_bind, Option.pure_def, Option.some.injEq] at hb
  subst hb
  have hmlt : min (c.PublicName.length + 16) 255 < 256 := by omega
  unfold Config.Spec
  rw [readU16_u16be c.Version hv whole]
  simp only [Option.bind_eq_bind, Option.some_bind]
  rw [show whole = whole ++ [] by simp, readU16Prefixed_u16Pre _ _ _ hwhole]
  simp only [Option.some_bind, List.append_assoc, u8, Nat.mod_eq_of_lt hid,
    Nat.mod_eq_of_lt hmlt, List.cons_append, List.nil_append]
  rw [readU8]
  simp only [Option.some_bind]
  rw [readU16_u16be c.KEM hkem]
  simp only [Option.some_bind]
  rw [show pkw ++ (sw ++ (min (c.PublicName.length + 16) 255 :: (pnw ++ u16be 0)))
        = pkw ++ (sw ++ (min (c.PublicName.length + 16) 255 :: (pnw ++ u16be 0))) from rfl,
    readU16Prefixed_u16Pre _ _ _ hpk]
  simp only [Option.some_bind]
  rw [readU16Prefixed_u16Pre _ _ _ hsw]
  simp only [Option.some_bind]
  rw [readCipherSuites_roundtrip _ hsuites]
  simp only [Option.some_bind]
  rw [readU8]
  simp only [Option.some_bind]
  rw [readU8Prefixed_u8Pre _ _ _ hpn]
  simp only [Option.some_bind, Option.pure_def, Option.some.injEq]
  cases c
  simp_all

theorem newConfig_generates (id : Nat) (pn pk : List Nat)
    (h1 : 1 ≤ pn.length) (h2 : pn.length ≤ 255) (hpk : pk.length = 32) :
    ∃ conf, NewConfig id pn pk = some conf := by
  have hne : ¬(pn.length = 0 ∨ pn.length > 255) := by omega
  unfold NewConfig
  rw [if_neg hne]
  unfold ConfigSpec.Bytes
  dsimp only
  rw [if_neg hne]
  unfold u16Pre u8Pre
  rw [hpk, if_pos (by omega)]
  simp only [List.map_cons, List.map_nil, List.flatten_cons, List.flatten_nil, List.append_nil]
  rw [if_pos (by simp [u16be]), if_pos (by omega)]
  simp only [Option.bind_eq_bind, Option.some_bind]
  rw [if_pos (by simp [u8, u16be, hpk]; omega)]
  exact ⟨_, rfl⟩

/-- **C6**: every config produced by `NewConfig(id, public_name)` (public name
length 1..=255) parses with `Spec()` into a structured value that `Bytes()`
serializes back to the original bytes, and re-parsing yields the same value. -/
theorem newConfig_spec_roundtrip (id : Nat) (pn pk : List Nat) (hid : id < 256)
    (h1 : 1 ≤ pn.length) (h2 : pn.length ≤ 255) (hpk : pk.length = 32) :
    ∃ conf, NewConfig id pn pk = some conf ∧
      Config.Spec conf = some (newConfigSpec id pn pk) ∧
      ConfigSpec.Bytes (newConfigSpec id pn pk) = some conf ∧
      ∀ conf2, ConfigSpec.Bytes (newConfigSpec id pn pk) = some conf2 →
        Config.Spec conf2 = some (newConfigSpec id pn pk) := by
  obtain ⟨conf, hconf⟩ := newConfig_generates id pn pk h1 h2 hpk
  have hne : ¬(pn.length = 0 ∨ pn.length > 255) := by omega
  have hb : ConfigSpec.Bytes (newConfigSpec id pn pk) = some conf := by
    unfold NewConfig at hconf
    rw [if_neg hne] at hconf
    exact hconf
  have hspec : Config.Spec conf = some (newConfigSpec id pn pk) := by
    refine spec_bytes_roundtrip (newConfigSpec id pn pk) conf hb
      (by simp only [newConfigSpec]; omega)
      (by simpa [newConfigSpec] using hid)
      (by simp only [newConfigSpec]; omega) ?_ rfl
    intro s hs
    simp only [newConfigSpec, List.mem_singleton] at hs
    subst hs
    exact ⟨by decide, by decide⟩
  exact ⟨conf, hconf, hspec, hb, fun conf2 h2 => by rw [hb] at h2; cases h2; exact hspec⟩

/-! ### Errors and TLS alerts (`errors.go`)

The error kinds used by the interceptor.  `noMatch` is the internal sentinel
`errNoMatch` (no matching ECH key): it triggers passthrough and is filtered
out before any alert conversion. -/

inductive EchError where
  | decodeError
  | unexpectedMessage
  | illegalParameter
  | missingExtension
  | decryptError
  | noMatch
  | other
deriving DecidableEq, Repr

/-- `sendAlert` (errors.go): write a 2-byte TLS alert record (content type
0x15, version TLS 1.2) and close the connection when the level is fatal (2).
Returns the bytes written and whether the connection was closed. -/
def sendAlert (level description : Nat) : List Nat × Bool :=
  ([0x15, 0x03, 0x03, 0x00, 0x02, level % 256, description % 256], level == 0x2)

/-- Modelled from the spec: the current `convertErrorsToAlerts` of errors.go.
The revision of errors.go matching the interceptor under verification (the one
declaring `ErrMissingExtension`, `ErrDecryptError` and `errNoMatch`, which the
interceptor and its tests use) is not part of the source snapshot; only an
older revision without the `missing_extension` and `decrypt_error` cases is.
Per the spec: `UnexpectedMessage → 0x0A`, `IllegalParameter → 0x2F`,
`DecodeError → 0x32`, `MissingExtension → 0x6E`, `DecryptError → 0x33`,
other → `HandshakeFailure 0x28`, all at level 2 (fatal).  `none` stands for a
nil error, for which no alert is sent. -/
def convertErrorsToAlerts : Option EchError → Option (List Nat × Bool)
  | none => none
  | some .unexpectedMessage => some (sendAlert 0x2 0x0a)
  | some .illegalParameter => some (sendAlert 0x2 0x2f)
  | some .decodeError => some (sendAlert 0x2 0x32)
  | some .missingExtension => some (sendAlert 0x2 0x6e)
  | some .decryptError => some (sendAlert 0x2 0x33)
  | some _ => some (sendAlert 0x2 0x28)

/-- The alert description byte the spec assigns to each error kind. -/
def alertDescription : EchError → Nat
  | .unexpectedMessage => 0x0a
  | .illegalParameter => 0x2f
  | .decodeError => 0x32
  | .missingExtension => 0x6e
  | .decryptError => 0x33
  | _ => 0x28

/-- **C2**: on every surfaced error the interceptor sends exactly one fatal
(level 2) TLS alert record and closes the connection, with description 0x0A
for UnexpectedMessage, 0x2F for IllegalParameter, 0x32 for DecodeError, 0x6E
for MissingExtension, 0x33 for DecryptError and 0x28 for any other error. -/
theorem convertErrorsToAlerts_fatal (e : EchError) :
    convertErrorsToAlerts (some e) =
      some ([0x15, 0x03, 0x03, 0x00, 0x02, 0x02, alertDescription e], true) := by
  cases e <;> rfl

/-- Witness for C6 at concrete inputs. -/
theorem newConfig_spec_roundtrip_witness :
    ∃ conf, NewConfig 1 [101, 120] (List.replicate 32 7) = some conf ∧
      Config.Spec conf = some (newConfigSpec 1 [101, 120] (List.replicate 32 7)) ∧
      ConfigSpec.Bytes (newConfigSpec 1 [101, 120] (List.replicate 32 7)) = some conf ∧
      ∀ conf2, ConfigSpec.Bytes (newConfigSpec 1 [101, 120] (List.replicate 32 7)) = some conf2 →
        Config.Spec conf2 = some (newConfigSpec 1 [101, 120] (List.replicate 32 7)) :=
  newConfig_spec_roundtrip 1 [101, 120] (List.replicate 32 7)
    (by decide) (by decide) (by decide) (by simp)

end ECH

namespace ECH.Dns

/-! ### DNS message decoding (`dns/message.go`)

The decoder keeps the whole response in `raw`; a `cryptobyte.String` in the Go
code is a sub-slice of `raw` and is modelled as a window `(pos, stop)` of
indices into `raw`.  Following a compression pointer re-binds the string to
`raw[offset:]`, i.e. to the window `(offset, raw.length)`.  The Go pointer
comparison `uintptr(&d.raw[offset]) >= current` compares addresses inside the
single backing array `raw`, which is exactly index comparison. -/

structure Window where
  pos : Nat
  stop : Nat
deriving DecidableEq, Repr

def byteAt (raw : List Nat) (i : Nat) : Nat := raw.getD i 0

def readU8W (raw : List Nat) (w : Window) : Option (Nat × Window) :=
  if w.pos < w.stop then some (byteAt raw w.pos, ⟨w.pos + 1, w.stop⟩) else none

def readU16W (raw : List Nat) (w : Window) : Option (Nat × Window) :=
  if w.pos + 2 ≤ w.stop then
    some (byteAt raw w.pos * 256 + byteAt raw (w.pos + 1), ⟨w.pos + 2, w.stop⟩)
  else none

/-- The bytes of a window. -/
def slice (raw : List Nat) (w : Window) : List Nat :=
  (raw.drop w.pos).take (w.stop - w.pos)

def readBytesW (raw : List Nat) (n : Nat) (w : Window) : Option (List Nat × Window) :=
  if w.pos + n ≤ w.stop then some (slice raw ⟨w.pos, w.pos + n⟩, ⟨w.pos + n, w.stop⟩) else none

def readU8PrefixedW (raw : List Nat) (w : Window) : Option (List Nat × Window) := do
  let (n, w1) ← readU8W raw w
  readBytesW raw n w1

/-- Read a u16-length-prefixed field, returning its window. -/
def readU16PrefixedW (raw : List Nat) (w : Window) : Option (Window × Window) :=
  match readU16W raw w with
  | none => none
  | some (n, w1) =>
      if w1.pos + n ≤ w1.stop then some (⟨w1.pos, w1.pos + n⟩, ⟨w1.pos + n, w1.stop⟩)
      else none

/-- Result of a decoding step: success, `ErrDecodeError`, or out of fuel (the
Go loop has no fuel bound; `fuelOut` identifies non-terminating runs). -/
inductive DnsRes (α : Type) where
  | ok : α → DnsRes α
  | err : DnsRes α
  | fuelOut : DnsRes α
deriving DecidableEq, Repr

/-- `decoder.nameLabels` (dns/message.go).  `caller` records the position of
the caller's string after the first pointer (the Go code re-binds its local
`s`, so the caller's string stops advancing at the first pointer); it is
`none` while no pointer has been followed.  The pointer branch mirrors
`offset &= 0x3fff; if int(offset) >= len(d.raw) || &d.raw[offset] >= current
{ return ErrDecodeError }`. -/
def nameLabelsAux (raw : List Nat) :
    Nat → Window → Option Window → List (List Nat) → DnsRes (List (List Nat) × Window)
  | 0, _, _, _ => .fuelOut
  | fuel + 1, w, caller, acc =>
    if w.pos < w.stop ∧ 192 ≤ byteAt raw w.pos then
      match readU16W raw w with
      | none => .err
      | some (v, w') =>
        let offset := v % 0x4000
        if raw.length ≤ offset ∨ w.pos ≤ offset then .err
        else nameLabelsAux raw fuel ⟨offset, raw.length⟩ (some (caller.getD w')) acc
    else
      match readU8PrefixedW raw w with
      | none => .err
      | some (label, w') =>
        if label.length = 0 then .ok (acc.reverse, caller.getD w')
        else nameLabelsAux raw fuel w' caller (label :: acc)

/-- `decoder.name`, kept as the label list (the Go code joins with "."). -/
def nameLabels (raw : List Nat) (fuel : Nat) (w : Window) :
    DnsRes (List (List Nat) × Window) :=
  nameLabelsAux raw fuel w none []

/-- `HTTPS` (dns/message.go): the decoded HTTPS resource record.  Note the
`IPv4Hint`/`IPv6Hint` fields have Go type `net.IP` — one single byte string,
not a list of addresses.  `Target` is kept as its label list. -/
structure HTTPSRec where
  Priority : Nat := 0
  Target : List (List Nat) := []
  ALPN : List (List Nat) := []
  NoDefaultALPN : Bool := false
  Port : Nat := 0
  IPv4Hint : List Nat := []
  IPv6Hint : List Nat := []
  ECH : List Nat := []
deriving DecidableEq, Repr

/-- The `case 1` (alpn) loop of `decoder.https`: read u8-prefixed protocol
names until the value is exhausted. -/
def readALPN : Nat → List Nat → Option (List (List Nat))
  | _, [] => some []
  | 0, _ => none
  | fuel + 1, s => do
    let (p, r) ← readU8Prefixed s
    let rest ← readALPN fuel r
    pure (p :: rest)

/-- The SvcParam loop of `decoder.https`: `(key u16, u16-prefixed value)`
pairs; keys 0 and unknown keys are ignored, key 1 appends ALPN entries, key 2
sets no-default-alpn, key 3 reads a u16 port, keys 4/5/6 store the raw value
bytes in `IPv4Hint`/`ECH`/`IPv6Hint`. -/
def httpsParams (raw : List Nat) : Nat → Window → HTTPSRec → DnsRes HTTPSRec
  | 0, _, _ => .fuelOut
  | fuel + 1, w, result =>
    if w.pos < w.stop then
      match readU16W raw w with
      | none => .err
      | some (key, w1) =>
        match readU16PrefixedW raw w1 with
        | none => .err
        | some (value, w2) =>
          let vb := slice raw value
          match key with
          | 1 =>
            match readALPN vb.length vb with
            | none => .err
            | some protos =>
                httpsParams raw fuel w2 { result with ALPN := result.ALPN ++ protos }
          | 2 => httpsParams raw fuel w2 { result with NoDefaultALPN := true }
          | 3 =>
            match readU16 vb with
            | none => .err
            | some (port, _) => httpsParams raw fuel w2 { result with Port := port }
          | 4 => httpsParams raw fuel w2 { result with IPv4Hint := vb }
          | 5 => httpsParams raw fuel w2 { result with ECH := vb }
          | 6 => httpsParams raw fuel w2 { result with IPv6Hint := vb }
          | _ => httpsParams raw fuel w2 result
    else .ok result

/-- `decoder.https` (dns/message.go): SvcPriority, TargetName, then the
SvcParam pairs. -/
def https (raw : List Nat) (fuel : Nat) (w : Window) : DnsRes HTTPSRec :=
  match readU16W raw w with
  | none => .err
  | some (priority, w1) =>
    match nameLabels raw fuel w1 with
    | .err => .err
    | .fuelOut => .fuelOut
    | .ok (target, w2) =>
      httpsParams raw fuel w2 { Priority := priority, Target := target }

/-- A message on which `nameLabels` never terminates when decoding starts at
position 4: the pointer at position 4 targets position 0 (strictly before
itself, so the pointer check passes), and the label at position 0 leads right
back to the pointer. -/
def loopMsg : List Nat := [3, 97, 98, 99, 192, 0]

theorem nameLabels_loopMsg_cycle : ∀ (fuel : Nat) (caller : Option Window)
    (acc : List (List Nat)),
    nameLabelsAux loopMsg fuel ⟨4, 6⟩ caller acc = .fuelOut ∧
    nameLabelsAux loopMsg fuel ⟨0, 6⟩ caller acc = .fuelOut := by
  intro fuel
  induction fuel with
  | zero => intro c a; exact ⟨rfl, rfl⟩
  | succ n ih =>
    intro c a
    refine ⟨?_, ?_⟩
    · show nameLabelsAux loopMsg (n + 1) ⟨4, 6⟩ c a = .fuelOut
      rw [nameLabelsAux]
      norm_num [byteAt, loopMsg, readU16W]
      exact (ih _ _).2
    · show nameLabelsAux loopMsg (n + 1) ⟨0, 6⟩ c a = .fuelOut
      rw [nameLabelsAux]
      norm_num [byteAt, loopMsg, readU8PrefixedW, readU8W, readBytesW, slice]
      exact (ih _ _).1

/-- **C7 (counterexample)**: decoding the name at position 4 of `loopMsg`
never returns — in particular it is not rejected with a decode error — even
though every pointer it follows targets an offset strictly before the
pointer itself.  This refutes "pointer loops are impossible". -/
theorem nameLabels_loop_counterexample :
    ¬ ∃ fuel, nameLabels loopMsg fuel ⟨4, 6⟩ ≠ .fuelOut := by
  rintro ⟨fuel, h⟩
  exact h (nameLabels_loopMsg_cycle fuel none []).1

/-- **C7 (amended)**: the name decoder rejects, with a decode error, any
compression pointer whose target offset is greater than or equal to the
pointer's own position (so each individual pointer jump goes strictly
backwards); this does not make decoding loops impossible: on `loopMsg` the
decoder never terminates, because a backwards pointer can target a label run
that leads forward to the same pointer again. -/
theorem nameLabels_backwards_only_but_loops :
    (∀ (raw : List Nat) (fuel : Nat) (w : Window) (caller : Option Window)
      (acc : List (List Nat)),
      w.pos < w.stop → 192 ≤ byteAt raw w.pos → w.pos + 2 ≤ w.stop →
      w.pos ≤ (byteAt raw w.pos * 256 + byteAt raw (w.pos + 1)) % 0x4000 →
      nameLabelsAux raw (fuel + 1) w caller acc = .err) ∧
    (∀ fuel, nameLabels loopMsg fuel ⟨4, 6⟩ = .fuelOut) := by
  constructor
  · intro raw fuel w caller acc h1 h2 h3 h4
    rw [nameLabelsAux]
    rw [if_pos ⟨h1, h2⟩]
    unfold readU16W
    rw [if_pos h3]
    simp only
    rw [if_pos (Or.inr h4)]
  · intro fuel
    exact (nameLabels_loopMsg_cycle fuel none []).1

/-- Witness for the amended C7. -/
theorem nameLabels_backwards_only_but_loops_witness :
    nameLabelsAux [192, 0] 1 ⟨0, 2⟩ none [] = .err ∧
    nameLabels loopMsg 9 ⟨4, 6⟩ = .fuelOut :=
  ⟨nameLabels_backwards_only_but_loops.1 [192, 0] 0 ⟨0, 2⟩ none []
      (by decide) (by decide) (by decide) (by decide),
    nameLabels_backwards_only_but_loops.2 9⟩

/-- A 64-byte label (> 63) followed by the root label. -/
def longLabelMsg : List Nat := 64 :: (List.replicate 64 97 ++ [0])

/-- Four 64-byte labels: the decoded name has 4·64 bytes of labels
(259 characters with separating dots), well over 255. -/
def longNameMsg : List Nat := (List.replicate 4 (64 :: List.replicate 64 97)).flatten ++ [0]

/-- **C8 (counterexample)**: a name whose first label is 64 bytes long and
whose total decoded length exceeds 255 decodes successfully — it is not
rejected as a decode error. -/
theorem nameLabels_no_limit_counterexample :
    nameLabels longNameMsg 10 ⟨0, 261⟩ =
      .ok (List.replicate 4 (List.replicate 64 97), ⟨261, 261⟩) := by decide

theorem nameLabelsAux_label_step (raw : List Nat) (fuel : Nat) (w w' : Window)
    (caller : Option Window) (acc : List (List Nat)) (label : List Nat)
    (hnp : ¬(w.pos < w.stop ∧ 192 ≤ byteAt raw w.pos))
    (hr : readU8PrefixedW raw w = some (label, w')) (hne : label.length ≠ 0) :
    nameLabelsAux raw (fuel + 1) w caller acc =
      nameLabelsAux raw fuel w' caller (label :: acc) := by
  rw [nameLabelsAux, if_neg hnp, hr]
  simp only
  rw [if_neg hne]

theorem nameLabelsAux_root_step (raw : List Nat) (fuel : Nat) (w w' : Window)
    (caller : Option Window) (acc : List (List Nat))
    (hnp : ¬(w.pos < w.stop ∧ 192 ≤ byteAt raw w.pos))
    (hr : readU8PrefixedW raw w = some ([], w')) :
    nameLabelsAux raw (fuel + 1) w caller acc = .ok (acc.reverse, caller.getD w') := by
  rw [nameLabelsAux, if_neg hnp, hr]
  simp

/-- **C8 (amended)**: the name decoder enforces no RFC 1035 size limits:
any label of length up to 191 bytes (lengths 192..255 are compression
pointers) is decoded successfully, and names whose total decoded length
exceeds 255 bytes are decoded successfully. -/
theorem nameLabels_no_length_caps :
    (∀ (label : List Nat) (fuel : Nat), 1 ≤ label.length → label.length ≤ 191 →
      nameLabels (label.length :: (label ++ [0])) (fuel + 2) ⟨0, label.length + 2⟩ =
        .ok ([label], ⟨label.length + 2, label.length + 2⟩)) ∧
    nameLabels longNameMsg 10 ⟨0, 261⟩ =
      .ok (List.replicate 4 (List.replicate 64 97), ⟨261, 261⟩) := by
  constructor
  · intro label fuel h1 h2
    have hg0 : byteAt (label.length :: (label ++ [0])) 0 = label.length := rfl
    have hg1 : byteAt (label.length :: (label ++ [0])) (1 + label.length) = 0 := by
      unfold byteAt
      rw [show 1 + label.length = label.length + 1 by omega, List.getD_cons_succ,
        List.getD_append_right _ _ _ _ (le_refl _)]
      simp
    have hr1 : readU8PrefixedW (label.length :: (label ++ [0])) ⟨0, label.length + 2⟩ =
        some (label, ⟨1 + label.length, label.length + 2⟩) := by
      unfold readU8PrefixedW readU8W readBytesW slice
      dsimp only
      rw [if_pos (by omega), hg0]
      simp only [Option.bind_eq_bind, Option.some_bind, Nat.zero_add]
      rw [if_pos (by omega)]
      simp only [Option.some.injEq, Prod.mk.injEq, Window.mk.injEq,
        List.drop_succ_cons, List.drop_zero]
      refine ⟨?_, trivial⟩
      rw [show 1 + label.length - 1 = label.length by omega]
      exact List.take_left label [0]
    have hr2 : readU8PrefixedW (label.length :: (label ++ [0]))
        ⟨1 + label.length, label.length + 2⟩ =
        some ([], ⟨label.length + 2, label.length + 2⟩) := by
      unfold readU8PrefixedW readU8W readBytesW slice
      dsimp only
      rw [if_pos (by omega), hg1]
      simp only [Option.bind_eq_bind, Option.some_bind, Nat.add_zero]
      rw [if_pos (by omega)]
      simp only [Option.some.injEq, Prod.mk.injEq, Window.mk.injEq]
      refine ⟨by simp, by omega, trivial⟩
    unfold nameLabels
    rw [nameLabelsAux_label_step _ _ _ _ _ _ _
      (by dsimp only; rw [hg0]; omega) hr1 (by omega)]
    rw [nameLabelsAux_root_step _ _ _ _ _ _
      (by dsimp only; rw [hg1]; omega) hr2]
    simp
  · decide

/-- Witness for the amended C8. -/
theorem nameLabels_no_length_caps_witness :
    nameLabels (64 :: (List.replicate 64 97 ++ [0])) 7 ⟨0, 66⟩ =
      .ok ([List.replicate 64 97], ⟨66, 66⟩) ∧
    nameLabels longNameMsg 10 ⟨0, 261⟩ =
      .ok (List.replicate 4 (List.replicate 64 97), ⟨261, 261⟩) :=
  ⟨by
    have h := nameLabels_no_length_caps.1 (List.replicate 64 97) 5 (by decide) (by decide)
    simpa using h,
   nameLabels_no_length_caps.2⟩

/-- HTTPS rdata: SvcPriority 1, root target, ipv4hint (key 4) carrying two
concatenated IPv4 addresses `1.2.3.4` and `5.6.7.8` (8 bytes), ipv6hint
(key 6) carrying two concatenated IPv6 addresses (32 bytes). -/
def twoAddrHintMsg : List Nat :=
  [0, 1, 0, 0, 4, 0, 8, 1, 2, 3, 4, 5, 6, 7, 8, 0, 6, 0, 32] ++ List.replicate 32 9

/-- **C9 (code at the failing input)**: decoding an HTTPS record whose
ipv4hint value holds two addresses (8 bytes) and whose ipv6hint holds two
addresses (32 bytes) stores each value verbatim as one single `net.IP` byte
string: the decoded record has one 8-byte `IPv4Hint` and one 32-byte
`IPv6Hint`, not two entries each.  (The package's own test `TestMessageHTTPS`
and the resolver expect `[]net.IP` lists obtained by splitting.) -/
theorem https_hint_not_split :
    https twoAddrHintMsg 3 ⟨0, 51⟩ =
      .ok { Priority := 1, Target := [], IPv4Hint := [1, 2, 3, 4, 5, 6, 7, 8],
            IPv6Hint := List.replicate 32 9 } := by decide

end ECH.Dns

namespace ECH.Resolver

/-! ### Resolver cache (`resolve.go`)

`resolveOne`/`resolveOneNoCache` with the DoH round trip abstracted: the
decoded response `Message` is passed in.  The 2Q LRU cache of the external
`hashicorp/golang-lru` library is modelled as an association map (its
size-bounded eviction is not modelled); the per-entry read/write lock that
serializes the slow path collapses in this sequential model. -/

/-- The decoded RR data shapes `resolveOneNoCache` distinguishes: `str` for
name-valued records (CNAME), anything else is just carried through. -/
inductive RRData where
  | str : List Nat → RRData
  | ip : List Nat → RRData
  | httpsData : Dns.HTTPSRec → RRData
  | raw : List Nat → RRData
deriving DecidableEq, Repr

structure RR where
  Name : List Nat
  Typ : Nat
  TTL : Nat
  Data : RRData
deriving DecidableEq, Repr

/-- The fields of `dns.Message` that `resolveOneNoCache` uses.  `RCode` is
what `ResponseCode()` returns (the accessor itself is not in the snapshot;
per the spec it is the decoded RCODE). -/
structure Message where
  RCode : Nat
  Answer : List RR
deriving DecidableEq, Repr

/-- `strings.TrimSuffix(s, ".")`: drop one trailing dot (byte 46). -/
def trimDot (s : List Nat) : List Nat :=
  if s.getLast? = some 46 then s.dropLast else s

/-- The answer loop of `resolveOneNoCache`: fold the running TTL minimum over
every answer (a current value of 0 counts as unset), collect the `Data` of
answers matching the wanted name and query type, and follow CNAME (type 5)
renames of the wanted name.  Go reads `a.Data.(string)` for CNAMEs; the
decoder always yields a string there, so a non-string value leaves `want`
unchanged in this model. -/
def resolveAnswers (typNum : Nat) : List RR → List Nat → Nat → List RRData × Nat
  | [], _, ttl => ([], ttl)
  | a :: rest, want, ttl =>
    let ttl1 := if ttl = 0 ∨ ttl > a.TTL then a.TTL else ttl
    let n := trimDot a.Name
    let matched : List RRData := if n = want ∧ a.Typ = typNum then [a.Data] else []
    let want1 := if n = want ∧ a.Typ = 5 then
        (match a.Data with | .str s => trimDot s | _ => want) else want
    let (res, ttlF) := resolveAnswers typNum rest want1 ttl1
    (matched ++ res, ttlF)

/-- `resolveOneNoCache` (resolve.go), DoH abstracted: a non-zero response
code is an error; otherwise the collected data and the folded TTL. -/
def resolveOneNoCache (name : List Nat) (typNum : Nat) (msg : Message) :
    Except Nat (List RRData × Nat) :=
  if msg.RCode ≠ 0 then .error msg.RCode
  else .ok (resolveAnswers typNum msg.Answer (trimDot name) 0)

abbrev CacheKey := List Nat × Nat

/-- A cache value: absolute expiration (0 = the zero `time.Time`, i.e. never
filled) and the cached result. -/
structure CacheEntry where
  expiration : Nat
  result : List RRData
deriving DecidableEq, Repr

def cacheFind : List (CacheKey × CacheEntry) → CacheKey → Option CacheEntry
  | [], _ => none
  | (k, v) :: r, key => if k = key then some v else cacheFind r key

def cacheSet : List (CacheKey × CacheEntry) → CacheKey → CacheEntry →
    List (CacheKey × CacheEntry)
  | [], key, v => [(key, v)]
  | (k, w) :: r, key, v => if k = key then (key, v) :: r else (k, w) :: cacheSet r key v

def cacheRemove : List (CacheKey × CacheEntry) → CacheKey → List (CacheKey × CacheEntry)
  | [], _ => []
  | (k, w) :: r, key => if k = key then r else (k, w) :: cacheRemove r key

/-- `resolveOne` (resolve.go): serve from the cache while the entry is valid
(`expiration` set and `now` before it); otherwise do the network round trip,
cache an empty result for 300 seconds and a non-empty one until
`now + ttl`, and drop the entry on error.  Returns the result, the new cache
state, and whether a network request was made. -/
def resolveOne (cache : List (CacheKey × CacheEntry)) (now : Nat)
    (name : List Nat) (typNum : Nat) (msg : Message) :
    Except Nat (List RRData) × List (CacheKey × CacheEntry) × Bool :=
  let key : CacheKey := (name, typNum)
  let entry := (cacheFind cache key).getD ⟨0, []⟩
  if entry.expiration ≠ 0 ∧ now < entry.expiration then
    (.ok entry.result, cache, false)
  else
    match resolveOneNoCache name typNum msg with
    | .error e => (.error e, cacheRemove cache key, true)
    | .ok (res, ttl) =>
      let ttl1 := if res.length = 0 then 300 else ttl
      (.ok res, cacheSet cache key ⟨now + ttl1, res⟩, true)

/-- The TTL folding of `resolveOneNoCache` in isolation: `ttl = a.TTL` when
the running value is 0 (unset) or larger than `a.TTL`. -/
def ttlFold : List RR → Nat → Nat
  | [], t => t
  | a :: r, t => ttlFold r (if t = 0 ∨ t > a.TTL then a.TTL else t)

theorem resolveAnswers_snd (typNum : Nat) :
    ∀ (answers : List RR) (want : List Nat) (t : Nat),
    (resolveAnswers typNum answers want t).2 = ttlFold answers t := by
  intro answers
  induction answers with
  | nil => intro want t; rfl
  | cons a r ih =>
    intro want t
    rw [resolveAnswers, ttlFold]
    simp only [ih]

theorem foldr_min_shift (l : List Nat) : ∀ (x y : Nat),
    l.foldr min (min x y) = min y (l.foldr min x) := by
  induction l with
  | nil => intro x y; simp [Nat.min_comm]
  | cons c cs ih =>
    intro x y
    simp only [List.foldr_cons, ih]
    generalize cs.foldr min x = m
    omega

theorem foldr_min_facts (l : List Nat) (t : Nat) :
    (l.foldr min t = t ∨ l.foldr min t ∈ l) ∧
      (l.foldr min t ≤ t ∧ ∀ x ∈ l, l.foldr min t ≤ x) := by
  induction l with
  | nil => simp
  | cons c cs ih =>
    obtain ⟨hmem, hle, hall⟩ := ih
    simp only [List.foldr_cons, List.mem_cons]
    refine ⟨?_, ?_, ?_⟩
    · by_cases hc : c ≤ cs.foldr min t
      · exact Or.inr (Or.inl (Nat.min_eq_left hc))
      · rw [Nat.min_eq_right (by omega)]
        rcases hmem with h | h
        · exact Or.inl h
        · exact Or.inr (Or.inr h)
    · have := Nat.min_le_right c (cs.foldr min t)
      omega
    · intro x hx
      rcases hx with rfl | hx
      · exact Nat.min_le_left _ _
      · have h1 := hall x hx
        have h2 := Nat.min_le_right c (cs.foldr min t)
        omega

theorem ttlFold_pos_eq_foldr : ∀ (l : List RR) (t : Nat), 0 < t →
    (∀ x ∈ l, 0 < x.TTL) → ttlFold l t = (l.map (·.TTL)).foldr min t := by
  intro l
  induction l with
  | nil => intro t _ _; rfl
  | cons a r ih =>
    intro t ht hall
    rw [ttlFold]
    have he : (if t = 0 ∨ t > a.TTL then a.TTL else t) = min t a.TTL := by
      split <;> omega
    rw [he, ih (min t a.TTL) (by have := hall a (by simp); omega)
      (fun x hx => hall x (by simp [hx]))]
    simp only [List.map_cons, List.foldr_cons]
    exact foldr_min_shift _ _ _

/-- **C10 (counterexample)**: a successful response carrying one answer (TTL
77) that does not match the queried type is cached for 300 seconds, not until
`now + 77` as the claim's "response with at least one answer" clause
predicts. -/
theorem resolveOne_minttl_counterexample :
    resolveOne [] 0 [120] 1 ⟨0, [⟨[120], 16, 77, .raw []⟩]⟩ =
      (.ok [], [(([120], 1), ⟨300, []⟩)], true) ∧ (300 : Nat) ≠ 0 + 77 := by
  constructor
  · rfl
  · decide

/-- **C10 (amended)**: (1) a lookup that hits a cache entry whose expiration
is set and after `now` is served from the cache with no network request and
no cache change; (2) on a miss with a successful response, the result is
cached until `now + t` where `t` is the response's folded TTL when at least
one answer *matched* the queried name (after CNAME renames) and type, and
300 otherwise; (3) when every answer has a positive TTL, the folded TTL is
the minimum TTL across the response's answers. -/
theorem resolveOne_cache_semantics :
    (∀ (cache : List (CacheKey × CacheEntry)) (now : Nat) (name : List Nat)
      (typNum : Nat) (msg : Message) (e : CacheEntry),
      cacheFind cache (name, typNum) = some e → e.expiration ≠ 0 → now < e.expiration →
      resolveOne cache now name typNum msg = (.ok e.result, cache, false)) ∧
    (∀ (cache : List (CacheKey × CacheEntry)) (now : Nat) (name : List Nat)
      (typNum : Nat) (msg : Message) (res : List RRData) (ttl : Nat),
      cacheFind cache (name, typNum) = none → msg.RCode = 0 →
      resolveAnswers typNum msg.Answer (trimDot name) 0 = (res, ttl) →
      resolveOne cache now name typNum msg =
        (.ok res, cacheSet cache (name, typNum)
          ⟨now + (if res.length = 0 then 300 else ttl), res⟩, true)) ∧
    (∀ (typNum : Nat) (a : RR) (rest : List RR) (want : List Nat),
      (∀ x ∈ a :: rest, 0 < x.TTL) →
      (resolveAnswers typNum (a :: rest) want 0).2 ∈ (a :: rest).map (·.TTL) ∧
      ∀ x ∈ a :: rest, (resolveAnswers typNum (a :: rest) want 0).2 ≤ x.TTL) := by
  refine ⟨?_, ?_, ?_⟩
  · intro cache now name typNum msg e hfind hexp hnow
    unfold resolveOne
    dsimp only
    rw [hfind]
    simp only [Option.getD_some]
    rw [if_pos ⟨hexp, hnow⟩]
  · intro cache now name typNum msg res ttl hfind hrc hres
    unfold resolveOne
    dsimp only
    rw [hfind]
    simp only [Option.getD_none, ne_eq, not_true_eq_false, false_and, if_false]
    unfold resolveOneNoCache
    rw [if_neg (by omega), hres]
  · intro typNum a rest want hall
    rw [resolveAnswers_snd]
    rw [show ttlFold (a :: rest) 0 = ttlFold rest a.TTL by rw [ttlFold]; simp]
    rw [ttlFold_pos_eq_foldr rest a.TTL (by have := hall a (by simp); omega)
      (fun x hx => hall x (by simp [hx]))]
    obtain ⟨hmem, hle, hrest⟩ := foldr_min_facts (rest.map (·.TTL)) a.TTL
    constructor
    · simp only [List.map_cons, List.mem_cons]
      rcases hmem with h | h
      · exact Or.inl h
      · exact Or.inr h
    · intro x hx
      rcases List.mem_cons.mp hx with rfl | hx
      · exact hle
      · exact hrest x.TTL (List.mem_map_of_mem _ hx)

/-- Witness for the amended C10. -/
theorem resolveOne_cache_semantics_witness :
    resolveOne [(([120], 1), ⟨10, [.ip [1, 2, 3, 4]]⟩)] 5 [120] 1 ⟨0, []⟩ =
      (.ok [.ip [1, 2, 3, 4]], [(([120], 1), ⟨10, [.ip [1, 2, 3, 4]]⟩)], false) ∧
    resolveOne [] 5 [120] 1 ⟨0, [⟨[120], 1, 77, .ip [9, 9, 9, 9]⟩]⟩ =
      (.ok [.ip [9, 9, 9, 9]], [(([120], 1), ⟨82, [.ip [9, 9, 9, 9]]⟩)], true) ∧
    ((resolveAnswers 1 [⟨[120], 1, 77, .ip [9, 9, 9, 9]⟩] [120] 0).2 ∈
        ([⟨[120], 1, 77, .ip [9, 9, 9, 9]⟩] : List RR).map (·.TTL) ∧
      ∀ x ∈ ([⟨[120], 1, 77, .ip [9, 9, 9, 9]⟩] : List RR),
        (resolveAnswers 1 [⟨[120], 1, 77, .ip [9, 9, 9, 9]⟩] [120] 0).2 ≤ x.TTL) := by
  refine ⟨?_, ?_, ?_⟩
  · exact resolveOne_cache_semantics.1 _ 5 [120] 1 ⟨0, []⟩ ⟨10, [.ip [1, 2, 3, 4]]⟩
      rfl (by decide) (by decide)
  · have h := resolveOne_cache_semantics.2.1 [] 5 [120] 1
      ⟨0, [⟨[120], 1, 77, .ip [9, 9, 9, 9]⟩]⟩ [.ip [9, 9, 9, 9]] 77 rfl rfl rfl
    simpa using h
  · exact resolveOne_cache_semantics.2.2 1 ⟨[120], 1, 77, .ip [9, 9, 9, 9]⟩ [] [120]
      (by intro x hx; simp at hx; subst hx; decide)

end ECH.Resolver

namespace ECH

/-! ### ClientHello extensions and the ech_outer_extensions expansion
(`conn.go`, `processEncryptedClientHello`, Appendix B cursor walk)

The Go type `extension { Type uint16; Data []byte }`; `Type` is a reserved
word in Lean, hence `Typ`. -/

structure Extension where
  Typ : Nat
  Data : List Nat
deriving DecidableEq, Repr

/-- The cursor search `for p < len(h.Extensions) && h.Extensions[p].Type !=
extType { p++ }` followed by `p++` after a hit: with the cursor represented
as the remaining suffix of the outer extension list, it returns the first
extension of the wanted type together with the suffix after it. -/
def scanFor (t : Nat) : List Extension → Option (Extension × List Extension)
  | [] => none
  | e :: r => if e.Typ = t then some (e, r) else scanFor t r

/-- The `for !want.Empty()` loop of the expansion (Appendix B): read a u16
type, reject 0xfe0d/0xfd00, find it at or after the cursor (else
`IllegalParameter`), consume it and continue.  A dangling single byte is a
`DecodeError` (cryptobyte `ReadUint16` fails). -/
def expandWantLoop : List Nat → List Extension → Except EchError (List Extension)
  | [], _ => .ok []
  | [_], _ => .error .decodeError
  | a :: b :: rest, cursor =>
    let extType := a * 256 + b
    if extType = 0xfe0d ∨ extType = 0xfd00 then .error .illegalParameter
    else
      match scanFor extType cursor with
      | none => .error .illegalParameter
      | some (e, cursor') => (expandWantLoop rest cursor').map (e :: ·)

/-- The per-extension loop of `processEncryptedClientHello` (conn.go lines
950-987): copy extensions other than 0xfd00; at the first
`ech_outer_extensions`, read its u8-prefixed type list (trailing bytes of the
extension data are ignored) and splice in the referenced outer extensions; a
second 0xfd00 is an `IllegalParameter`. -/
def expandOuterExtensions (outerExts : List Extension) :
    List Extension → Bool → Except EchError (List Extension)
  | [], _ => .ok []
  | ext :: rest, eoeSeen =>
    if ext.Typ ≠ 0xfd00 then
      (expandOuterExtensions outerExts rest eoeSeen).map (ext :: ·)
    else if eoeSeen then .error .illegalParameter
    else
      match readU8Prefixed ext.Data with
      | none => .error .decodeError
      | some (want, _) =>
        match expandWantLoop want outerExts with
        | .error e => .error e
        | .ok replaced =>
          (expandOuterExtensions outerExts rest true).map (replaced ++ ·)

/-! Claim-level descriptions of the inputs, independent of the loop. -/

/-- Number of `ech_outer_extensions` extensions among the inner extensions. -/
def eoeCount (exts : List Extension) : Nat := (exts.filter (·.Typ = 0xfd00)).length

/-- The first `ech_outer_extensions` extension, if any. -/
def firstEOE (exts : List Extension) : Option Extension := exts.find? (·.Typ = 0xfd00)

/-- Decode a byte list as a sequence of big-endian u16 values. -/
def decodeU16s : List Nat → Option (List Nat)
  | [] => some []
  | [_] => none
  | a :: b :: r => (decodeU16s r).map ((a * 256 + b) :: ·)

/-- The referenced-type list of an ech_outer_extensions extension: its
u8-length-prefixed data decoded as u16 values. -/
def parseWantList (data : List Nat) : Option (List Nat) :=
  match readU8Prefixed data with
  | none => none
  | some (w, _) => decodeU16s w

def hasBadType (want : List Nat) : Bool :=
  want.any fun t => t = 0xfe0d ∨ t = 0xfd00

/-- Whether every referenced type can be found, in order, by a cursor that
only moves forward through the outer extension list. -/
def satisfiable : List Nat → List Extension → Bool
  | [], _ => true
  | t :: rest, cursor =>
    match scanFor t cursor with
    | none => false
    | some (_, cursor') => satisfiable rest cursor'

/-- Replace every 0xfd00 extension by `replaced` (on success there is at most
one). -/
def replaceEOE (exts replaced : List Extension) : List Extension :=
  exts.flatMap fun x => if x.Typ = 0xfd00 then replaced else [x]

/-- Induction on byte lists consumed two at a time. -/
theorem pairList_induction {motive : List Nat → Prop} (h0 : motive [])
    (h1 : ∀ a, motive [a]) (h2 : ∀ a b r, motive r → motive (a :: b :: r)) :
    ∀ l, motive l
  | [] => h0
  | [a] => h1 a
  | a :: b :: r => h2 a b r (pairList_induction h0 h1 h2 r)

theorem except_map_eq_error {α β : Type} (f : α → β) (x : Except EchError α) (e : EchError) :
    x.map f = .error e ↔ x = .error e := by
  cases x <;> simp [Except.map]

theorem except_map_eq_ok {α β : Type} (f : α → β) (x : Except EchError α) (b : β) :
    x.map f = .ok b ↔ ∃ a, x = .ok a ∧ f a = b := by
  cases x <;> simp [Except.map]

theorem scanFor_cons_sublist {t : Nat} : ∀ {cursor : List Extension} {e : Extension}
    {cursor' : List Extension}, scanFor t cursor = some (e, cursor') →
    e.Typ = t ∧ ∀ l, l.Sublist cursor' → (e :: l).Sublist cursor := by
  intro cursor
  induction cursor with
  | nil => intro e c h; cases h
  | cons c cs ih =>
    intro e cursor' h
    rw [scanFor] at h
    split at h
    · cases h
      next he => exact ⟨he, fun l hl => List.Sublist.cons₂ _ hl⟩
    · obtain ⟨he, hsub⟩ := ih h
      exact ⟨he, fun l hl => List.Sublist.cons _ (hsub l hl)⟩

theorem expandWantLoop_ok_shape : ∀ (w : List Nat) (cursor replaced : List Extension),
    expandWantLoop w cursor = .ok replaced →
    decodeU16s w = some (replaced.map (·.Typ)) ∧ replaced.Sublist cursor := by
  intro w
  induction w using pairList_induction with
  | h0 =>
    intro cursor replaced h
    rw [expandWantLoop] at h
    cases h
    exact ⟨rfl, List.nil_sublist _⟩
  | h1 a =>
    intro cursor replaced h
    rw [expandWantLoop] at h
    cases h
  | h2 a b r ih =>
    intro cursor replaced h
    rw [expandWantLoop] at h
    split at h
    · cases h
    · split at h
      · cases h
      next e cursor' hscan =>
        rw [except_map_eq_ok] at h
        obtain ⟨rep', hrep', rfl⟩ := h
        obtain ⟨hts, hsub⟩ := ih cursor' rep' hrep'
        obtain ⟨hty, hcons⟩ := scanFor_cons_sublist hscan
        refine ⟨?_, hcons rep' hsub⟩
        rw [decodeU16s, hts]
        simp [hty]

theorem expandWantLoop_wf_success : ∀ (w ts : List Nat) (cursor : List Extension),
    decodeU16s w = some ts → hasBadType ts = false → satisfiable ts cursor = true →
    ∃ replaced, expandWantLoop w cursor = .ok replaced := by
  intro w
  induction w using pairList_induction with
  | h0 => intro ts cursor _ _ _; exact ⟨[], rfl⟩
  | h1 a => intro ts cursor h; cases h
  | h2 a b r ih =>
    intro ts cursor hdec hbad hsat
    rw [decodeU16s] at hdec
    rw [Option.map_eq_some'] at hdec
    obtain ⟨ts', hts', rfl⟩ := hdec
    simp only [hasBadType, List.any_cons, Bool.or_eq_false_iff, decide_eq_false_iff_not] at hbad
    obtain ⟨hbad1, hbad2⟩ := hbad
    rw [satisfiable] at hsat
    rw [expandWantLoop]
    rw [if_neg hbad1]
    split at hsat
    · cases hsat
    next e cursor' hscan =>
      obtain ⟨rep, hrep⟩ := ih ts' cursor' hts' (by exact hbad2) hsat
      exact ⟨e :: rep, by rw [hrep]; rfl⟩

theorem expandWantLoop_wf_fail : ∀ (w ts : List Nat) (cursor : List Extension),
    decodeU16s w = some ts → (hasBadType ts = true ∨ satisfiable ts cursor = false) →
    expandWantLoop w cursor = .error .illegalParameter := by
  intro w
  induction w using pairList_induction with
  | h0 =>
    intro ts cursor hdec h
    cases hdec
    rcases h with h | h <;> simp [hasBadType, satisfiable] at h
  | h1 a => intro ts cursor hdec; cases hdec
  | h2 a b r ih =>
    intro ts cursor hdec h
    rw [decodeU16s] at hdec
    rw [Option.map_eq_some'] at hdec
    obtain ⟨ts', hts', rfl⟩ := hdec
    rw [expandWantLoop]
    by_cases hb1 : a * 256 + b = 0xfe0d ∨ a * 256 + b = 0xfd00
    · rw [if_pos hb1]
    · rw [if_neg hb1]
      rcases hscan : scanFor (a * 256 + b) cursor with _ | ⟨e, cursor'⟩
      · rfl
      · dsimp only
        have h' : hasBadType ts' = true ∨ satisfiable ts' cursor' = false := by
          rcases h with h | h
          · left
            simp only [hasBadType, List.any_cons, Bool.or_eq_true, decide_eq_true_eq] at h
            rcases h with h | h
            · exact absurd h hb1
            · simp only [hasBadType]
              rw [List.any_eq_true]
              obtain ⟨x, hx, hxx⟩ := List.any_eq_true.mp h
              exact ⟨x, hx, hxx⟩
          · right
            rw [satisfiable, hscan] at h
            exact h
        rw [ih ts' cursor' hts' h']
        rfl

theorem expandOuterExtensions_no_eoe (outer : List Extension) :
    ∀ (exts : List Extension) (b : Bool), (∀ x ∈ exts, x.Typ ≠ 0xfd00) →
    expandOuterExtensions outer exts b = .ok exts := by
  intro exts
  induction exts with
  | nil => intro b _; rfl
  | cons x rest ih =>
    intro b hall
    rw [expandOuterExtensions]
    rw [if_pos (hall x (by simp))]
    rw [ih b (fun y hy => hall y (by simp [hy]))]
    rfl

theorem expandOuterExtensions_second_eoe (outer : List Extension) :
    ∀ (exts : List Extension), (∃ x ∈ exts, x.Typ = 0xfd00) →
    expandOuterExtensions outer exts true = .error .illegalParameter := by
  intro exts
  induction exts with
  | nil => rintro ⟨x, hx, _⟩; cases hx
  | cons x rest ih =>
    rintro ⟨y, hy, hyt⟩
    rw [expandOuterExtensions]
    by_cases hx : x.Typ ≠ 0xfd00
    · rw [if_pos hx]
      have hr : ∃ z ∈ rest, z.Typ = 0xfd00 := by
        rcases List.mem_cons.mp hy with rfl | h
        · exact absurd hyt hx
        · exact ⟨y, h, hyt⟩
      rw [ih hr]
      rfl
    · rw [if_neg hx]
      rfl

theorem expandOuterExtensions_true_ok (outer : List Extension) :
    ∀ (exts t : List Extension), expandOuterExtensions outer exts true = .ok t →
    t = exts ∧ ∀ x ∈ exts, x.Typ ≠ 0xfd00 := by
  intro exts
  induction exts with
  | nil =>
    intro t h
    rw [expandOuterExtensions] at h
    cases h
    exact ⟨rfl, by simp⟩
  | cons x rest ih =>
    intro t h
    rw [expandOuterExtensions] at h
    by_cases hx : x.Typ ≠ 0xfd00
    · rw [if_pos hx] at h
      rw [except_map_eq_ok] at h
      obtain ⟨t', ht', rfl⟩ := h
      obtain ⟨rfl, hall⟩ := ih t' ht'
      refine ⟨rfl, ?_⟩
      intro y hy
      rcases List.mem_cons.mp hy with rfl | hy
      · exact hx
      · exact hall y hy
    · rw [if_neg hx] at h
      cases h

theorem eoeCount_pos_iff (l : List Extension) :
    1 ≤ eoeCount l ↔ ∃ y ∈ l, y.Typ = 0xfd00 := by
  unfold eoeCount
  induction l with
  | nil => simp
  | cons x rest ih =>
    rw [List.filter_cons]
    by_cases hx : x.Typ = 0xfd00
    · simp [hx]
    · rw [if_neg (by simpa using hx), ih]
      simp only [List.mem_cons]
      constructor
      · rintro ⟨y, hy, hyt⟩
        exact ⟨y, Or.inr hy, hyt⟩
      · rintro ⟨y, hy, hyt⟩
        rcases hy with rfl | hy
        · exact absurd hyt hx
        · exact ⟨y, hy, hyt⟩

theorem replaceEOE_no_eoe (replaced : List Extension) :
    ∀ (l : List Extension), (∀ x ∈ l, x.Typ ≠ 0xfd00) → replaceEOE l replaced = l := by
  intro l
  induction l with
  | nil => intro _; rfl
  | cons x rest ih =>
    intro hall
    unfold replaceEOE at ih ⊢
    simp only [List.flatMap_cons]
    rw [if_neg (hall x (by simp)), ih (fun y hy => hall y (by simp [hy]))]
    rfl

theorem firstEOE_cons_ne {x : Extension} (rest : List Extension) (hx : x.Typ ≠ 0xfd00) :
    firstEOE (x :: rest) = firstEOE rest := by
  unfold firstEOE
  rw [List.find?_cons_of_neg]
  simpa using hx

theorem firstEOE_cons_eoe {x : Extension} (rest : List Extension) (hx : x.Typ = 0xfd00) :
    firstEOE (x :: rest) = some x := by
  unfold firstEOE
  rw [List.find?_cons_of_pos]
  simpa using hx

theorem expand_firstEOE_none (outer : List Extension) (inner : List Extension)
    (h : firstEOE inner = none) :
    expandOuterExtensions outer inner false = .ok inner := by
  refine expandOuterExtensions_no_eoe outer inner false ?_
  intro x hx
  have := List.find?_eq_none.mp h x hx
  simpa using this

theorem expand_malformed (outer : List Extension) :
    ∀ (inner : List Extension) (e : Extension), firstEOE inner = some e →
    readU8Prefixed e.Data = none →
    expandOuterExtensions outer inner false = .error .decodeError := by
  intro inner
  induction inner with
  | nil => intro e h; cases h
  | cons x rest ih =>
    intro e hfind hdata
    rw [expandOuterExtensions]
    by_cases hx : x.Typ ≠ 0xfd00
    · rw [if_pos hx]
      rw [firstEOE_cons_ne rest hx] at hfind
      rw [ih e hfind hdata]
      rfl
    · push_neg at hx
      rw [firstEOE_cons_eoe rest hx] at hfind
      cases hfind
      rw [if_neg (by simp [hx]), hdata]
      rfl

theorem expand_ip_iff (outer : List Extension) :
    ∀ (inner : List Extension) (e : Extension) (want : List Nat),
    firstEOE inner = some e → parseWantList e.Data = some want →
    (expandOuterExtensions outer inner false = .error .illegalParameter ↔
      (hasBadType want = true ∨ satisfiable want outer = false ∨ 2 ≤ eoeCount inner)) := by
  intro inner
  induction inner with
  | nil => intro e want h; cases h
  | cons x rest ih =>
    intro e want hfind hwant
    by_cases hx : x.Typ ≠ 0xfd00
    · rw [firstEOE_cons_ne rest hx] at hfind
      rw [expandOuterExtensions, if_pos hx, except_map_eq_error]
      rw [ih e want hfind hwant]
      unfold eoeCount
      rw [List.filter_cons, if_neg (by simpa using hx)]
    · push_neg at hx
      rw [firstEOE_cons_eoe rest hx] at hfind
      cases hfind
      rw [expandOuterExtensions, if_neg (by simp [hx])]
      unfold parseWantList at hwant
      rcases hdata : readU8Prefixed x.Data with _ | ⟨w, wrest⟩
      · rw [hdata] at hwant
        cases hwant
      rw [hdata] at hwant
      dsimp only at hwant ⊢
      have heoc : eoeCount (x :: rest) = eoeCount rest + 1 := by
        unfold eoeCount
        rw [List.filter_cons, if_pos (by simpa using hx)]
        rfl
      by_cases hbad : hasBadType want = true
      · rw [expandWantLoop_wf_fail w want outer hwant (Or.inl hbad)]
        simp [hbad]
      · by_cases hsat : satisfiable want outer = true
        · obtain ⟨replaced, hrep⟩ := expandWantLoop_wf_success w want outer hwant
            (by simpa using hbad) hsat
          rw [hrep]
          dsimp only
          rw [if_neg Bool.false_ne_true]
          by_cases hdup : ∃ y ∈ rest, y.Typ = 0xfd00
          · rw [except_map_eq_error, expandOuterExtensions_second_eoe outer rest hdup]
            have h2 : 2 ≤ eoeCount (x :: rest) := by
              rw [heoc]
              have := (eoeCount_pos_iff rest).mpr hdup
              omega
            simp [h2]
          · rw [except_map_eq_error,
              expandOuterExtensions_no_eoe outer rest true (by push_neg at hdup; exact hdup)]
            have h2 : ¬ 2 ≤ eoeCount (x :: rest) := by
              rw [heoc]
              have : ¬ 1 ≤ eoeCount rest := fun hc => hdup ((eoeCount_pos_iff rest).mp hc)
              omega
            constructor
            · intro hc
              cases hc
            · rintro (hc | hc | hc)
              · exact absurd hc hbad
              · exact absurd hc (by rw [hsat]; intro hcc; cases hcc)
              · exact absurd hc h2
        · have hs : satisfiable want outer = false := by
            cases hsv : satisfiable want outer
            · rfl
            · exact absurd hsv hsat
          rw [expandWantLoop_wf_fail w want outer hwant (Or.inr hs)]
          simp [hs]

theorem expand_ok_shape (outer : List Extension) :
    ∀ (inner newExts : List Extension),
    expandOuterExtensions outer inner false = .ok newExts →
    (firstEOE inner = none ∧ newExts = inner) ∨
    (∃ e want replaced, firstEOE inner = some e ∧ parseWantList e.Data = some want ∧
      replaced.Sublist outer ∧ replaced.map (·.Typ) = want ∧
      newExts = replaceEOE inner replaced) := by
  intro inner
  induction inner with
  | nil =>
    intro newExts h
    rw [expandOuterExtensions] at h
    cases h
    exact Or.inl ⟨rfl, rfl⟩
  | cons x rest ih =>
    intro newExts h
    rw [expandOuterExtensions] at h
    by_cases hx : x.Typ ≠ 0xfd00
    · rw [if_pos hx, except_map_eq_ok] at h
      obtain ⟨t', ht', rfl⟩ := h
      rcases ih t' ht' with ⟨hnone, heq⟩ | ⟨e, want, replaced, hfind, hwant, hsub, hmap, heq⟩
      · refine Or.inl ⟨?_, ?_⟩
        · rw [firstEOE_cons_ne rest hx]
          exact hnone
        · rw [heq]
      · refine Or.inr ⟨e, want, replaced, ?_, hwant, hsub, hmap, ?_⟩
        · rw [firstEOE_cons_ne rest hx]
          exact hfind
        · rw [heq]
          unfold replaceEOE
          rw [List.flatMap_cons, if_neg hx]
          rfl
    · push_neg at hx
      rw [if_neg (by simp [hx])] at h
      rcases hdata : readU8Prefixed x.Data with _ | ⟨w, wrest⟩
      · rw [hdata] at h
        cases h
      rw [hdata] at h
      dsimp only at h
      rcases hloop : expandWantLoop w outer with he | replaced
      · rw [hloop] at h
        cases h
      rw [hloop] at h
      rw [if_neg Bool.false_ne_true] at h
      rw [except_map_eq_ok] at h
      obtain ⟨t', ht', rfl⟩ := h
      obtain ⟨heq2, hall⟩ := expandOuterExtensions_true_ok outer rest t' ht'
      subst heq2
      obtain ⟨hdec, hsub⟩ := expandWantLoop_ok_shape w outer replaced hloop
      refine Or.inr ⟨x, replaced.map (·.Typ), replaced,
        firstEOE_cons_eoe t' hx, ?_, hsub, rfl, ?_⟩
      · unfold parseWantList
        rw [hdata]
        dsimp only
        exact hdec
      · unfold replaceEOE
        rw [List.flatMap_cons, if_pos hx]
        have hfl : ∀ (l : List Extension), (∀ y ∈ l, y.Typ ≠ 0xfd00) →
            (l.flatMap fun y => if y.Typ = 0xfd00 then replaced else [y]) = l :=
          fun l hl => replaceEOE_no_eoe replaced l hl
        rw [hfl t' hall]

/-- **C1 (counterexample)**: with two `ech_outer_extensions` extensions in the
inner ClientHello whose first occurrence has malformed data (empty, no length
prefix), the expansion fails with `DecodeError`, not `IllegalParameter` — the
claim's "fails with IllegalParameter exactly when … ech_outer_extensions
appears more than once" is therefore false as stated. -/
theorem expand_dup_after_malformed_counterexample :
    expandOuterExtensions [] [⟨0xfd00, []⟩, ⟨0xfd00, []⟩] false = .error .decodeError ∧
    2 ≤ eoeCount [⟨0xfd00, []⟩, ⟨0xfd00, []⟩] ∧
    EchError.decodeError ≠ EchError.illegalParameter := by
  refine ⟨rfl, by decide, by decide⟩

/-- **C1 (amended)**: the ech_outer_extensions expansion of
`processEncryptedClientHello`:
1. with no 0xfd00 extension among the inner extensions it returns them
   unchanged;
2. when the first 0xfd00 extension's data lacks a valid u8 length prefix the
   expansion fails with `DecodeError` (so a duplicate occurrence after a
   malformed first one reports `DecodeError`, not `IllegalParameter`);
3. when the referenced-type list parses (u8-prefixed, even length), the
   expansion fails with `IllegalParameter` **iff** the list contains 0xfe0d
   or 0xfd00, or some reference cannot be satisfied by the forward-only
   cursor, or `ech_outer_extensions` appears more than once;
4. on success the spliced-in extensions are a subsequence of the outer list
   (the cursor only advances, so each outer extension is consumed at most
   once, in order) whose types are exactly the referenced list, and the
   result is the inner extensions with the single 0xfd00 extension replaced
   by them. -/
theorem expandOuterExtensions_spec :
    (∀ (outer inner : List Extension), firstEOE inner = none →
      expandOuterExtensions outer inner false = .ok inner) ∧
    (∀ (outer inner : List Extension) (e : Extension), firstEOE inner = some e →
      readU8Prefixed e.Data = none →
      expandOuterExtensions outer inner false = .error .decodeError) ∧
    (∀ (outer inner : List Extension) (e : Extension) (want : List Nat),
      firstEOE inner = some e → parseWantList e.Data = some want →
      (expandOuterExtensions outer inner false = .error .illegalParameter ↔
        (hasBadType want = true ∨ satisfiable want outer = false ∨ 2 ≤ eoeCount inner))) ∧
    (∀ (outer inner newExts : List Extension),
      expandOuterExtensions outer inner false = .ok newExts →
      (firstEOE inner = none ∧ newExts = inner) ∨
      (∃ e want replaced, firstEOE inner = some e ∧ parseWantList e.Data = some want ∧
        replaced.Sublist outer ∧ replaced.map (·.Typ) = want ∧
        newExts = replaceEOE inner replaced)) :=
  ⟨fun outer inner h => expand_firstEOE_none outer inner h,
   fun outer inner e h1 h2 => expand_malformed outer inner e h1 h2,
   fun outer inner e want h1 h2 => expand_ip_iff outer inner e want h1 h2,
   fun outer inner newExts h => expand_ok_shape outer inner newExts h⟩

/-- Witness for the amended C1: a concrete run of every part.  Outer
extensions `[⟨10,[1]⟩, ⟨43,[2]⟩, ⟨10,[3]⟩]`; an inner list whose 0xfd00
extension references types 10, 43 — the cursor picks the first type-10
extension, then type 43 after it. -/
theorem expandOuterExtensions_spec_witness :
    expandOuterExtensions [⟨10, [1]⟩] [⟨5, [9]⟩] false = .ok [⟨5, [9]⟩] ∧
    expandOuterExtensions [] [⟨0xfd00, []⟩] false = .error .decodeError ∧
    (expandOuterExtensions [⟨10, [1]⟩] [⟨0xfd00, [2, 0, 43]⟩] false =
        .error .illegalParameter ↔
      (hasBadType [43] = true ∨ satisfiable [43] [⟨10, [1]⟩] = false ∨
        2 ≤ eoeCount [⟨0xfd00, [2, 0, 43]⟩])) ∧
    ((firstEOE [⟨5, [9]⟩, ⟨0xfd00, [4, 0, 10, 0, 43]⟩] = none ∧
        ([⟨5, [9]⟩, ⟨10, [1]⟩, ⟨43, [2]⟩] : List Extension) =
          [⟨5, [9]⟩, ⟨0xfd00, [4, 0, 10, 0, 43]⟩]) ∨
      (∃ e want replaced,
        firstEOE [⟨5, [9]⟩, ⟨0xfd00, [4, 0, 10, 0, 43]⟩] = some e ∧
        parseWantList e.Data = some want ∧
        replaced.Sublist [⟨10, [1]⟩, ⟨43, [2]⟩, ⟨10, [3]⟩] ∧
        replaced.map (·.Typ) = want ∧
        ([⟨5, [9]⟩, ⟨10, [1]⟩, ⟨43, [2]⟩] : List Extension) =
          replaceEOE [⟨5, [9]⟩, ⟨0xfd00, [4, 0, 10, 0, 43]⟩] replaced)) :=
  ⟨expandOuterExtensions_spec.1 [⟨10, [1]⟩] [⟨5, [9]⟩] (by decide),
   expandOuterExtensions_spec.2.1 [] [⟨0xfd00, []⟩] ⟨0xfd00, []⟩ (by decide) (by decide),
   expandOuterExtensions_spec.2.2.1 [⟨10, [1]⟩] [⟨0xfd00, [2, 0, 43]⟩] ⟨0xfd00, [2, 0, 43]⟩
     [43] (by decide) (by decide),
   expandOuterExtensions_spec.2.2.2 [⟨10, [1]⟩, ⟨43, [2]⟩, ⟨10, [3]⟩]
     [⟨5, [9]⟩, ⟨0xfd00, [4, 0, 10, 0, 43]⟩] [⟨5, [9]⟩, ⟨10, [1]⟩, ⟨43, [2]⟩] rfl⟩

theorem readU16_length_eq {s : List Nat} {v : Nat} {r : List Nat}
    (h : readU16 s = some (v, r)) : r.length + 2 = s.length := by
  unfold readU16 at h
  match s with
  | [] => cases h
  | [_] => cases h
  | a :: b :: rest =>
    cases h
    simp

theorem readU8Prefixed_length_lt {s b r : List Nat} (h : readU8Prefixed s = some (b, r)) :
    r.length < s.length := by
  unfold readU8Prefixed readU8 at h
  cases s with
  | nil => cases h
  | cons x xs =>
    simp only [Option.bind_eq_bind, Option.some_bind] at h
    unfold readBytes at h
    split at h
    · cases h
      simp only [List.length_drop, List.length_cons]
      omega
    · cases h

theorem readU16Prefixed_length_lt {s b r : List Nat} (h : readU16Prefixed s = some (b, r)) :
    r.length < s.length := by
  unfold readU16Prefixed readU16 at h
  cases s with
  | nil => cases h
  | cons x xs =>
    cases xs with
    | nil => cases h
    | cons y ys =>
      simp only [Option.bind_eq_bind, Option.some_bind] at h
      unfold readBytes at h
      split at h
      · cases h
        simp only [List.length_drop, List.length_cons]
        omega
      · cases h

end ECH

namespace ECH.V1

/-! ### ClientHello codec, revision of `src/client_hello.go` (claim C5)

This file-level revision takes an (unused) `keys` parameter in Go, requires
the u24 handshake length to equal the remaining input exactly, requires
`legacy_compression_methods == [0]`, and parses the derived extension fields
inline.  Its error values are `ErrInvalidFormat`, `ErrUnexpectedMessage` and
`ErrIllegalParameter`. -/

inductive Err where
  | invalidFormat
  | unexpectedMessage
  | illegalParameter
deriving DecidableEq, Repr

/-- Go `echExt` (client_hello.go): `Type`, and for Outer (0) the cipher suite,
config id, enc and payload; the remaining fields keep their zero values for
other types. -/
structure EchExt where
  Typ : Nat
  KDF : Nat := 0
  AEAD : Nat := 0
  ConfigID : Nat := 0
  Enc : List Nat := []
  Payload : List Nat := []
deriving DecidableEq, Repr

/-- Go `clientHello` (client_hello.go); `helloExtension` is `Extension`. -/
structure ClientHello where
  ServerName : List Nat
  ALPNProtos : List (List Nat)
  LegacyVersion : Nat
  Random : List Nat
  LegacySessionID : List Nat
  CipherSuite : List Nat
  LegacyCompressionMethods : List Nat
  Extensions : List Extension
  hasECHOuterExtensions : Bool
  tls13 : Bool
  echExt : Option EchExt
deriving DecidableEq, Repr

/-- The derived fields accumulated while walking the extensions. -/
structure Derived where
  ServerName : List Nat := []
  ALPNProtos : List (List Nat) := []
  hasECHOuterExtensions : Bool := false
  tls13 : Bool := false
  echExt : Option EchExt := none
deriving DecidableEq, Repr

/-- The ServerNameList loop: each entry is a name type byte (must be 0,
host_name) and a u16-prefixed host name; a second non-empty name (the
accumulator already set) is rejected. -/
def parseServerNames : List Nat → List Nat → Except Err (List Nat)
  | [], acc => .ok acc
  | nameType :: rest, acc =>
    if nameType ≠ 0 then .error .invalidFormat
    else
      match h : readU16Prefixed rest with
      | none => .error .invalidFormat
      | some (hostName, rest') =>
        if acc ≠ [] then .error .invalidFormat
        else parseServerNames rest' hostName
termination_by l _ => l.length
decreasing_by
  simp only [List.length_cons]
  have := readU16Prefixed_length_lt h
  omega

/-- The ProtocolNameList loop: u8-prefixed protocol names. -/
def parseALPNList : List Nat → List (List Nat) → Except Err (List (List Nat))
  | [], acc => .ok acc
  | x :: xs, acc =>
    match h : readU8Prefixed (x :: xs) with
    | none => .error .invalidFormat
    | some (p, rest) => parseALPNList rest (acc ++ [p])
termination_by l _ => l.length
decreasing_by
  have := readU8Prefixed_length_lt h
  simp only [List.length_cons] at *
  omega

/-- The supported_versions loop: u16 versions, any ≥ 0x0304 sets tls13. -/
def parseVersionsList : List Nat → Bool → Except Err Bool
  | [], t => .ok t
  | a :: b :: r, t => parseVersionsList r (t || decide (0x0304 ≤ a * 256 + b))
  | _, _ => .error .invalidFormat

/-- The `case 0xfe0d` parse: type byte, then for Outer (0) the cipher suite,
config id, enc and payload.  This revision accepts any type value. -/
def parseECHExt (data : List Nat) : Except Err EchExt :=
  match readU8 data with
  | none => .error .invalidFormat
  | some (t, d1) =>
    if t = 0 then
      match readU16 d1 with
      | none => .error .invalidFormat
      | some (kdf, d2) =>
        match readU16 d2 with
        | none => .error .invalidFormat
        | some (aead, d3) =>
          match readU8 d3 with
          | none => .error .invalidFormat
          | some (cid, d4) =>
            match readU16Prefixed d4 with
            | none => .error .invalidFormat
            | some (enc, d5) =>
              match readU16Prefixed d5 with
              | none => .error .invalidFormat
              | some (payload, _) =>
                .ok { Typ := t, KDF := kdf, AEAD := aead, ConfigID := cid,
                      Enc := enc, Payload := payload }
    else .ok { Typ := t }

/-- The `switch extType` body of `parseClientHello`. -/
def processExt (st : Derived) (ext : Extension) : Except Err Derived :=
  match ext.Typ with
  | 0 =>
    match readU16Prefixed ext.Data with
    | none => .error .invalidFormat
    | some (serverNameList, _) =>
      match parseServerNames serverNameList st.ServerName with
      | .error e => .error e
      | .ok name => .ok { st with ServerName := name }
  | 16 =>
    match readU16Prefixed ext.Data with
    | none => .error .invalidFormat
    | some (protocolNameList, _) =>
      match parseALPNList protocolNameList st.ALPNProtos with
      | .error e => .error e
      | .ok protos => .ok { st with ALPNProtos := protos }
  | 43 =>
    match readU8Prefixed ext.Data with
    | none => .error .invalidFormat
    | some (versions, _) =>
      match parseVersionsList versions st.tls13 with
      | .error e => .error e
      | .ok t => .ok { st with tls13 := t }
  | 0xfd00 => .ok { st with hasECHOuterExtensions := true }
  | 0xfe0d =>
    match parseECHExt ext.Data with
    | .error e => .error e
    | .ok e => .ok { st with echExt := some e }
  | _ => .ok st

/-- The extension loop: read `extension_type u16` and u16-prefixed data,
record the raw extension, and process the known types inline. -/
def parseExtLoop : List Nat → Derived → Except Err (List Extension × Derived)
  | [], st => .ok ([], st)
  | x :: xs, st =>
    match h0 : readU16 (x :: xs) with
    | none => .error .invalidFormat
    | some (t, r1) =>
      match h : readU16Prefixed r1 with
      | none => .error .invalidFormat
      | some (data, r2) =>
        match processExt st ⟨t, data⟩ with
        | .error e => .error e
        | .ok st' =>
          match parseExtLoop r2 st' with
          | .error e => .error e
          | .ok (exts, stF) => .ok (⟨t, data⟩ :: exts, stF)
termination_by l _ => l.length
decreasing_by
  have h1 := readU16Prefixed_length_lt h
  have h2 := readU16_length_eq h0
  simp only [List.length_cons] at *
  omega

/-- `parseClientHello` (client_hello.go): the unused Go `keys` parameter is
dropped.  Returns the hello together with the bytes left unread after the
extensions block; the Go function silently discards this remainder (there is
no end-of-input check after the extensions), while the u24 handshake length
must equal the remaining input exactly. -/
def parseClientHello (buf : List Nat) : Except Err (ClientHello × List Nat) :=
  match readU8 buf with
  | none => .error .invalidFormat
  | some (msgType, s0) =>
    if msgType ≠ 0x01 then .error .unexpectedMessage
    else
      match readBytes 3 s0 with
      | none => .error .invalidFormat
      | some (hlength, s) =>
        let msgLength := hlength.getD 0 0 * 65536 + hlength.getD 1 0 * 256 + hlength.getD 2 0
        if msgLength ≠ s.length then .error .invalidFormat
        else
          match readU16 s with
          | none => .error .invalidFormat
          | some (legacyVersion, s1) =>
            match readBytes 32 s1 with
            | none => .error .invalidFormat
            | some (random, s2) =>
              match readU8Prefixed s2 with
              | none => .error .invalidFormat
              | some (sessionID, s3) =>
                match readU16Prefixed s3 with
                | none => .error .invalidFormat
                | some (cipherSuite, s4) =>
                  match readU8Prefixed s4 with
                  | none => .error .invalidFormat
                  | some (compression, s5) =>
                    if compression ≠ [0] then .error .illegalParameter
                    else
                      match readU16Prefixed s5 with
                      | none => .error .invalidFormat
                      | some (extBlock, leftover) =>
                        match parseExtLoop extBlock {} with
                        | .error e => .error e
                        | .ok (exts, d) =>
                          .ok ({ ServerName := d.ServerName,
                                 ALPNProtos := d.ALPNProtos,
                                 LegacyVersion := legacyVersion,
                                 Random := random,
                                 LegacySessionID := sessionID,
                                 CipherSuite := cipherSuite,
                                 LegacyCompressionMethods := compression,
                                 Extensions := exts,
                                 hasECHOuterExtensions := d.hasECHOuterExtensions,
                                 tls13 := d.tls13,
                                 echExt := d.echExt }, leftover)

/-- Encode one extension; for the AAD variant the payload region of the
0xfe0d extension is replaced by zero bytes of the same length (`pl` is the
ech payload length; the source dereferences `c.echExt` there, which is
non-nil whenever a parsed hello carries a 0xfe0d extension). -/
def encodeExt (pl : Nat) (aad : Bool) (ext : Extension) : Option (List Nat) := do
  let inner := if aad ∧ ext.Typ = 0xfe0d then
      ext.Data.take (ext.Data.length - pl) ++
        List.replicate (ext.Data.length - (ext.Data.length - pl)) 0
    else ext.Data
  let d ← u16Pre inner
  pure (u16be ext.Typ ++ d)

def encodeExts (pl : Nat) (aad : Bool) : List Extension → Option (List Nat)
  | [] => some []
  | e :: r => do
    let h ← encodeExt pl aad e
    let t ← encodeExts pl aad r
    pure (h ++ t)

/-- `clientHello.marshal` (client_hello.go): record header (0x16, version),
u16-prefixed handshake message (type 0x01, u24-prefixed body). -/
def marshal (c : ClientHello) (aad : Bool) : Option (List Nat) := do
  let sess ← u8Pre c.LegacySessionID
  let ciph ← u16Pre c.CipherSuite
  let comp ← u8Pre c.LegacyCompressionMethods
  let extBytes ← encodeExts ((c.echExt.map (·.Payload.length)).getD 0) aad c.Extensions
  let extBlock ← u16Pre extBytes
  let body := u16be c.LegacyVersion ++ c.Random ++ sess ++ ciph ++ comp ++ extBlock
  let hs ← u24Pre body
  let recBody ← u16Pre (0x01 :: hs)
  pure (0x16 :: (u16be c.LegacyVersion ++ recBody))

/-- `clientHello.Marshal`. -/
def Marshal (c : ClientHello) : Option (List Nat) := marshal c false

/-- `clientHello.marshalAAD`: serialize with the zeroed payload and strip the
9 header bytes (5-byte record header + 4-byte handshake header). -/
def marshalAAD (c : ClientHello) : Option (List Nat) := (marshal c true).map (·.drop 9)

/-- The byte image of an extension list: for each extension its type, data
length and data, all as emitted by `marshal` outside AAD mode. -/
def extsEncoding (exts : List Extension) : List Nat :=
  (exts.map fun e => u16be e.Typ ++ u16be e.Data.length ++ e.Data).flatten

/-- The derived-field processing of an extension list, separated from the
byte-level reads. -/
def processExts : List Extension → Derived → Except Err Derived
  | [], st => .ok st
  | e :: r, st =>
    match processExt st e with
    | .error err => .error err
    | .ok st' => processExts r st'

/-- The derived fields recorded in a hello. -/
def derivedOf (h : ClientHello) : Derived :=
  ⟨h.ServerName, h.ALPNProtos, h.hasECHOuterExtensions, h.tls13, h.echExt⟩

theorem readU16_decomp {s : List Nat} {v : Nat} {r : List Nat}
    (hwf : ∀ b ∈ s, b < 256) (h : readU16 s = some (v, r)) :
    s = u16be v ++ r ∧ v < 65536 := by
  unfold readU16 at h
  match s with
  | [] => cases h
  | [_] => cases h
  | a :: b :: rest =>
    cases h
    have ha : a < 256 := hwf a (by simp)
    have hb : b < 256 := hwf b (by simp)
    constructor
    · rw [u16be_eq _ (by omega)]
      simp only [List.cons_append, List.nil_append, List.cons.injEq]
      refine ⟨by omega, by omega, trivial⟩
    · omega

theorem readBytes_decomp {n : Nat} {s b r : List Nat} (h : readBytes n s = some (b, r)) :
    s = b ++ r ∧ b.length = n := by
  unfold readBytes at h
  split at h
  next hle =>
    cases h
    exact ⟨(List.take_append_drop n s).symm, by simp [hle]⟩
  · cases h

theorem readU8Prefixed_decomp {s b r : List Nat} (hwf : ∀ x ∈ s, x < 256)
    (h : readU8Prefixed s = some (b, r)) :
    s = b.length :: (b ++ r) ∧ b.length < 256 := by
  unfold readU8Prefixed readU8 at h
  match s with
  | [] => cases h
  | n :: rest =>
    simp only [Option.bind_eq_bind, Option.some_bind] at h
    obtain ⟨hrest, hlen⟩ := readBytes_decomp h
    subst hlen
    exact ⟨by rw [hrest], hwf b.length (by simp)⟩

theorem readU16Prefixed_decomp {s b r : List Nat} (hwf : ∀ x ∈ s, x < 256)
    (h : readU16Prefixed s = some (b, r)) :
    s = u16be b.length ++ (b ++ r) ∧ b.length < 65536 := by
  unfold readU16Prefixed readU16 at h
  match s with
  | [] => cases h
  | [_] => cases h
  | a0 :: a1 :: rest =>
    simp only [Option.bind_eq_bind, Option.some_bind] at h
    obtain ⟨hrest, hlen⟩ := readBytes_decomp h
    have h0 : a0 < 256 := hwf a0 (by simp)
    have h1 : a1 < 256 := hwf a1 (by simp)
    constructor
    · rw [u16be_eq _ (by omega)]
      simp only [List.cons_append, List.nil_append, List.cons.injEq]
      refine ⟨by omega, by omega, by rw [hrest]⟩
    · omega

theorem wf_sub {s t : List Nat} (hsub : s ⊆ t) (hwf : ∀ x ∈ t, x < 256) :
    ∀ x ∈ s, x < 256 := fun x hx => hwf x (hsub hx)

theorem parseExtLoop_fwd : ∀ (n : Nat) (B : List Nat), B.length ≤ n →
    (∀ b ∈ B, b < 256) → ∀ (st : Derived) (exts : List Extension) (d : Derived),
    parseExtLoop B st = .ok (exts, d) →
    B = extsEncoding exts ∧ processExts exts st = .ok d ∧
      ∀ e ∈ exts, e.Typ < 65536 ∧ e.Data.length < 65536 ∧ ∀ b ∈ e.Data, b < 256 := by
  intro n
  induction n with
  | zero =>
    intro B hB _ st exts d hp
    have hBnil : B = [] := List.length_eq_zero.mp (by omega)
    subst hBnil
    rw [parseExtLoop] at hp
    cases hp
    exact ⟨rfl, rfl, by simp⟩
  | succ n ih =>
    intro B hB hwf st exts d hp
    match B with
    | [] =>
      rw [parseExtLoop] at hp
      cases hp
      exact ⟨rfl, rfl, by simp⟩
    | x :: xs =>
      rw [parseExtLoop] at hp
      split at hp
      · cases hp
      rename_i t r1 h16
      split at hp
      · cases hp
      rename_i data r2 hpre
      split at hp
      · cases hp
      rename_i st' hproc
      split at hp
      · cases hp
      rename_i exts' dF hrec
      cases hp
      obtain ⟨hs16, ht⟩ := readU16_decomp hwf h16
      have hwf1 : ∀ b ∈ r1, b < 256 := by
        intro b hb
        exact hwf b (by rw [hs16]; exact List.mem_append_right _ hb)
      obtain ⟨hs1, hdl⟩ := readU16Prefixed_decomp hwf1 hpre
      have hwfd : ∀ b ∈ data, b < 256 := by
        intro b hb
        refine hwf1 b ?_
        rw [hs1]
        exact List.mem_append_right _ (List.mem_append_left _ hb)
      have hwf2 : ∀ b ∈ r2, b < 256 := by
        intro b hb
        refine hwf1 b ?_
        rw [hs1]
        exact List.mem_append_right _ (List.mem_append_right _ hb)
      have hlen2 : r2.length ≤ n := by
        have h1 := readU16Prefixed_length_lt hpre
        have h2 := readU16_length_eq h16
        simp only [List.length_cons] at hB h2
        omega
      obtain ⟨hb2, hpr, hall⟩ := ih r2 hlen2 hwf2 st' exts' d hrec
      refine ⟨?_, ?_, ?_⟩
      · unfold extsEncoding
        simp only [List.map_cons, List.flatten_cons]
        rw [hs16, hs1, hb2]
        simp [extsEncoding, List.append_assoc]
      · unfold processExts
        rw [hproc]
        exact hpr
      · intro e he
        rcases List.mem_cons.mp he with rfl | he
        · exact ⟨ht, hdl, hwfd⟩
        · exact hall e he

theorem parseExtLoop_bwd : ∀ (exts : List Extension) (st d : Derived),
    processExts exts st = .ok d →
    (∀ e ∈ exts, e.Typ < 65536 ∧ e.Data.length < 65536) →
    parseExtLoop (extsEncoding exts) st = .ok (exts, d) := by
  intro exts
  induction exts with
  | nil =>
    intro st d hp _
    rw [processExts] at hp
    cases hp
    rw [show extsEncoding [] = [] from rfl, parseExtLoop]
  | cons e r ih =>
    intro st d hp hb
    rw [processExts] at hp
    rcases hproc : processExt st e with err | st'
    · rw [hproc] at hp; cases hp
    rw [hproc] at hp
    obtain ⟨ht, hdl⟩ := hb e (by simp)
    have henc : extsEncoding (e :: r) =
        e.Typ / 256 :: e.Typ % 256 :: ((u16be e.Data.length ++ e.Data) ++ extsEncoding r) := by
      unfold extsEncoding
      simp [List.map_cons, List.flatten_cons, List.append_assoc, u16be_eq e.Typ ht]
    rw [henc, parseExtLoop]
    split
    · rename_i h16
      rw [readU16] at h16
      cases h16
    rename_i t r1 h16
    rw [readU16] at h16
    have hteq : e.Typ / 256 * 256 + e.Typ % 256 = e.Typ := by omega
    rw [hteq] at h16
    cases h16
    split
    · rename_i hpre
      rw [readU16Prefixed_u16Pre e.Data (u16be e.Data.length ++ e.Data) (extsEncoding r)
        (by unfold u16Pre; rw [if_pos hdl])] at hpre
      cases hpre
    rename_i data r2 hpre
    rw [readU16Prefixed_u16Pre e.Data (u16be e.Data.length ++ e.Data) (extsEncoding r)
      (by unfold u16Pre; rw [if_pos hdl])] at hpre
    cases hpre
    have hee : (⟨e.Typ, e.Data⟩ : Extension) = e := rfl
    rw [hee, hproc]
    dsimp only at hp ⊢
    rw [ih st' d hp (fun y hy => hb y (by simp [hy]))]

theorem parseExtLoop_nil (st : Derived) : parseExtLoop [] st = .ok ([], st) := by
  rw [parseExtLoop]

theorem readU8_decomp {s : List Nat} {v : Nat} {r : List Nat} (hwf : ∀ b ∈ s, b < 256)
    (h : readU8 s = some (v, r)) : s = v :: r ∧ v < 256 := by
  unfold readU8 at h
  match s with
  | [] => cases h
  | a :: rest =>
    cases h
    exact ⟨rfl, hwf v (by simp)⟩

theorem readBytes_of_len {n : Nat} (b r : List Nat) (h : b.length = n) :
    readBytes n (b ++ r) = some (b, r) := by
  subst h
  exact readBytes_exact b r

theorem u24be_getD_recombine (n : Nat) (hn : n < 16777216) :
    (u24be n).getD 0 0 * 65536 + (u24be n).getD 1 0 * 256 + (u24be n).getD 2 0 = n := by
  simp only [u24be, List.getD_cons_zero, List.getD_cons_succ]
  omega

theorem encodeExt_false (pl : Nat) (e : Extension) (hdl : e.Data.length < 65536) :
    encodeExt pl false e = some (u16be e.Typ ++ u16be e.Data.length ++ e.Data) := by
  unfold encodeExt
  rw [if_neg (by simp)]
  dsimp only
  rw [show u16Pre e.Data = some (u16be e.Data.length ++ e.Data) from by
    unfold u16Pre; rw [if_pos hdl]]
  simp [List.append_assoc]

theorem encodeExts_false (pl : Nat) : ∀ (exts : List Extension),
    (∀ e ∈ exts, e.Data.length < 65536) →
    encodeExts pl false exts = some (extsEncoding exts) := by
  intro exts
  induction exts with
  | nil => intro _; rfl
  | cons e r ih =>
    intro hb
    rw [encodeExts, encodeExt_false pl e (hb e (by simp)),
      ih (fun x hx => hb x (by simp [hx]))]
    simp [extsEncoding, List.append_assoc]

/-- Evaluating `parseClientHello` on a record body assembled from its parts:
handshake type, u24 length, then version, random, session id, cipher suites,
the single null compression method, the extensions block and any trailing
bytes inside the declared length. -/
theorem parseClientHello_build (LV : Nat) (hLV : LV < 65536)
    (random sess ciph EB leftover : List Nat)
    (hr : random.length = 32) (hsl : sess.length < 256) (hcl : ciph.length < 65536)
    (hEBl : EB.length < 65536)
    (exts : List Extension) (d : Derived) (hloop : parseExtLoop EB {} = .ok (exts, d))
    (B : List Nat) (hsize : B.length < 16777216)
    (hB : B = u16be LV ++ (random ++ ((sess.length :: sess) ++
      ((u16be ciph.length ++ ciph) ++ ([1, 0] ++ ((u16be EB.length ++ EB) ++ leftover)))))) :
    parseClientHello (0x01 :: (u24be B.length ++ B)) =
      .ok ({ ServerName := d.ServerName, ALPNProtos := d.ALPNProtos, LegacyVersion := LV,
             Random := random, LegacySessionID := sess, CipherSuite := ciph,
             LegacyCompressionMethods := [0], Extensions := exts,
             hasECHOuterExtensions := d.hasECHOuterExtensions, tls13 := d.tls13,
             echExt := d.echExt }, leftover) := by
  unfold parseClientHello
  rw [show readU8 (0x01 :: (u24be B.length ++ B)) = some (0x01, u24be B.length ++ B) from rfl]
  dsimp only
  rw [if_neg (by omega)]
  rw [readBytes_of_len (u24be B.length) B (by simp [u24be])]
  dsimp only
  rw [u24be_getD_recombine B.length hsize]
  rw [if_neg (by omega)]
  rw [hB]
  rw [readU16_u16be LV hLV]
  dsimp only
  rw [readBytes_of_len random _ hr]
  dsimp only
  rw [readU8Prefixed_u8Pre sess _ _ (by unfold u8Pre; rw [if_pos hsl])]
  dsimp only
  rw [readU16Prefixed_u16Pre ciph _ _ (by unfold u16Pre; rw [if_pos hcl])]
  dsimp only
  rw [readU8Prefixed_u8Pre [0] [1, 0] _ rfl]
  dsimp only
  rw [if_neg (by simp)]
  rw [readU16Prefixed_u16Pre EB _ leftover (by unfold u16Pre; rw [if_pos hEBl])]
  dsimp only
  rw [hloop]

/-- **C5.** Round trip of `parseClientHello` and `marshal`
(src/client_hello.go): re-serializing a successfully parsed ClientHello
record body succeeds (for bodies below the 64 KiB record-builder limit) and
the serialized record's payload reproduces the input exactly whenever the
parse consumed the entire body; in every case re-parsing the serialized
payload is a fixed point returning the identical message with nothing left
over.  The parser tolerates trailing bytes between the end of the
extensions block and the declared message length, and those bytes are
dropped by re-serialization, which is why full consumption is required for
byte equality. -/
theorem parseClientHello_roundtrip (buf : List Nat) (h : ClientHello) (leftover : List Nat)
    (hwf : ∀ b ∈ buf, b < 256) (hfit : buf.length < 65535)
    (hp : parseClientHello buf = .ok (h, leftover)) :
    ∃ m, Marshal h = some m ∧ parseClientHello (m.drop 5) = .ok (h, []) ∧
      (leftover = [] → m.drop 5 = buf) := by
  unfold parseClientHello at hp
  split at hp
  · cases hp
  rename_i msgType s0 h8
  split at hp
  · cases hp
  rename_i hmt
  split at hp
  · cases hp
  rename_i hlength s hb3
  simp only [] at hp
  split at hp
  · cases hp
  rename_i hml
  split at hp
  · cases hp
  rename_i LV s1 h16v
  split at hp
  · cases hp
  rename_i random s2 hrand
  split at hp
  · cases hp
  rename_i sess s3 hsess
  split at hp
  · cases hp
  rename_i ciph s4 hciph
  split at hp
  · cases hp
  rename_i comp s5 hcomp
  split at hp
  · cases hp
  rename_i hcompval
  split at hp
  · cases hp
  rename_i EB leftoverV hEB
  split at hp
  · cases hp
  rename_i exts d hloop
  cases hp
  have hcompv : comp = [0] := by
    by_contra hne
    exact hcompval hne
  subst hcompv
  obtain ⟨hbuf0, hmtlt⟩ := readU8_decomp hwf h8
  have hmt1 : msgType = 1 := by omega
  subst hmt1
  have hwf0 : ∀ b ∈ s0, b < 256 := fun b hb => hwf b (by rw [hbuf0]; simp [hb])
  obtain ⟨hs0, hl3⟩ := readBytes_decomp hb3
  have hwfs : ∀ b ∈ s, b < 256 := fun b hb => hwf0 b (by rw [hs0]; simp [hb])
  obtain ⟨hsdec, hLVlt⟩ := readU16_decomp hwfs h16v
  have hwfs1 : ∀ b ∈ s1, b < 256 := fun b hb => hwfs b (by rw [hsdec]; simp [hb])
  obtain ⟨hs1dec, hrand32⟩ := readBytes_decomp hrand
  have hwfs2 : ∀ b ∈ s2, b < 256 := fun b hb => hwfs1 b (by rw [hs1dec]; simp [hb])
  obtain ⟨hs2dec, hsesslt⟩ := readU8Prefixed_decomp hwfs2 hsess
  have hwfs3 : ∀ b ∈ s3, b < 256 := fun b hb => hwfs2 b (by rw [hs2dec]; simp [hb])
  obtain ⟨hs3dec, hciphlt⟩ := readU16Prefixed_decomp hwfs3 hciph
  have hwfs4 : ∀ b ∈ s4, b < 256 := fun b hb => hwfs3 b (by rw [hs3dec]; simp [hb])
  obtain ⟨hs4dec, _⟩ := readU8Prefixed_decomp hwfs4 hcomp
  have hwfs5 : ∀ b ∈ s5, b < 256 := fun b hb => hwfs4 b (by rw [hs4dec]; simp [hb])
  obtain ⟨hs5dec, hEBlt⟩ := readU16Prefixed_decomp hwfs5 hEB
  have hwfEB : ∀ b ∈ EB, b < 256 := fun b hb => hwfs5 b (by rw [hs5dec]; simp [hb])
  obtain ⟨hEBenc, hproc, hbounds⟩ := parseExtLoop_fwd EB.length EB le_rfl hwfEB {} exts d hloop
  set B := u16be LV ++ random ++ (sess.length :: sess) ++ (u16be ciph.length ++ ciph) ++
      [1, 0] ++ (u16be EB.length ++ EB) with hBdef
  have hBs : B ++ leftover = s := by
    rw [hBdef, hsdec, hs1dec, hs2dec, hs3dec, hs4dec, hs5dec]
    simp [List.append_assoc]
  have hbuflen : buf.length = 4 + s.length := by
    rw [hbuf0, hs0]
    simp only [List.length_cons, List.length_append, hl3]
    omega
  have hBlen : B.length + leftover.length = s.length := by
    rw [← hBs]
    simp
  have hBsmall : B.length < 65531 := by omega
  refine ⟨0x16 :: (u16be LV ++ (u16be (4 + B.length) ++ (0x01 :: (u24be B.length ++ B)))),
    ?_, ?_, ?_⟩
  · unfold Marshal marshal
    dsimp only
    rw [show u8Pre sess = some (sess.length :: sess) from by unfold u8Pre; rw [if_pos hsesslt]]
    rw [show u16Pre ciph = some (u16be ciph.length ++ ciph) from by
      unfold u16Pre; rw [if_pos hciphlt]]
    rw [show encodeExts ((d.echExt.map fun e => e.Payload.length).getD 0) false exts =
        some EB from by rw [hEBenc]; exact encodeExts_false _ exts fun e he => (hbounds e he).2.1]
    simp only [Option.bind_eq_bind, Option.some_bind]
    rw [show u16Pre EB = some (u16be EB.length ++ EB) from by unfold u16Pre; rw [if_pos hEBlt]]
    simp only [Option.some_bind]
    rw [show u8Pre [0] = some [1, 0] from rfl]
    simp only [Option.some_bind]
    rw [← hBdef]
    rw [show u24Pre B = some (u24be B.length ++ B) from by unfold u24Pre; rw [if_pos (by omega)]]
    simp only [Option.some_bind]
    rw [show u16Pre (0x01 :: (u24be B.length ++ B)) =
        some (u16be (4 + B.length) ++ (0x01 :: (u24be B.length ++ B))) from by
      have hlen4 : (0x01 :: (u24be B.length ++ B)).length = 4 + B.length := by
        simp only [u24be, List.length_cons, List.length_append, List.length_nil]
        omega
      unfold u16Pre
      rw [hlen4, if_pos (by omega)]]
    simp only [Option.some_bind]
    rfl
  · rw [show (0x16 :: (u16be LV ++ (u16be (4 + B.length) ++
        (0x01 :: (u24be B.length ++ B))))).drop 5 = 0x01 :: (u24be B.length ++ B) from by
      simp [u16be]]
    exact parseClientHello_build LV hLVlt random sess ciph EB [] hrand32 hsesslt hciphlt hEBlt
      exts d hloop B (by omega) (by rw [hBdef]; simp [List.append_assoc])
  · intro hnil
    subst hnil
    have hseq : B = s := by simpa using hBs
    obtain ⟨a, b, c, habc⟩ : ∃ a b c, hlength = [a, b, c] := by
      match hlength, hl3 with
      | [a, b, c], _ => exact ⟨a, b, c, rfl⟩
    have hwfh : ∀ x ∈ hlength, x < 256 := fun x hx => hwf0 x (by rw [hs0]; simp [hx])
    have ha : a < 256 := hwfh a (by rw [habc]; simp)
    have hbb : b < 256 := hwfh b (by rw [habc]; simp)
    have hc : c < 256 := hwfh c (by rw [habc]; simp)
    have hmlv : a * 65536 + b * 256 + c = s.length := by
      rw [habc] at hml
      simp only [List.getD_cons_zero, List.getD_cons_succ] at hml
      omega
    have hu24 : u24be s.length = [a, b, c] := by
      unfold u24be
      simp only [List.cons.injEq, and_true]
      refine ⟨by omega, by omega, by omega⟩
    rw [hbuf0, hs0, habc, hseq, hu24]
    simp [u16be]

/-- A minimal well-formed ClientHello record body: TLS 1.2 legacy version,
an all-zero random, empty session id, one null cipher suite, the null
compression method and an empty extensions block. -/
def helloBuf : List Nat :=
  [0x01, 0, 0, 43, 3, 3] ++ List.replicate 32 0 ++ [0, 0, 2, 0, 0, 1, 0, 0, 0]

/-- The handshake body of `helloBuf` (without type and u24 length). -/
def helloBody : List Nat := [3, 3] ++ List.replicate 32 0 ++ [0, 0, 2, 0, 0, 1, 0, 0, 0]

/-- The message `helloBuf` parses to. -/
def helloMsg : ClientHello :=
  { ServerName := [], ALPNProtos := [], LegacyVersion := 0x0303,
    Random := List.replicate 32 0, LegacySessionID := [], CipherSuite := [0, 0],
    LegacyCompressionMethods := [0], Extensions := [],
    hasECHOuterExtensions := false, tls13 := false, echExt := none }

/-- `helloBuf` with one extra byte inside the declared message length, after
the end of the extensions block; the parser accepts it and ignores the
byte. -/
def slackBuf : List Nat :=
  [0x01, 0, 0, 44, 3, 3] ++ List.replicate 32 0 ++ [0, 0, 2, 0, 0, 1, 0, 0, 0, 7]

/-- The handshake body of `slackBuf`. -/
def slackBody : List Nat := [3, 3] ++ List.replicate 32 0 ++ [0, 0, 2, 0, 0, 1, 0, 0, 0, 7]

/-- Witness for C5 at `helloBuf`. -/
theorem parseClientHello_roundtrip_witness :
    ∃ m, Marshal helloMsg = some m ∧ parseClientHello (m.drop 5) = .ok (helloMsg, []) ∧
      m.drop 5 = helloBuf := by
  have hp : parseClientHello helloBuf = .ok (helloMsg, []) := by
    have hb := parseClientHello_build 0x0303 (by omega) (List.replicate 32 0) [] [0, 0] [] []
      (by decide) (by decide) (by decide) (by decide) [] {} (parseExtLoop_nil {})
      helloBody (by decide) (by decide)
    have he : helloBuf = 0x01 :: (u24be helloBody.length ++ helloBody) := by decide
    rw [he]
    exact hb
  obtain ⟨m, h1, h2, h3⟩ := parseClientHello_roundtrip helloBuf helloMsg [] (by decide)
    (by decide) hp
  exact ⟨m, h1, h2, h3 rfl⟩

/-- **C5 counterexample.** A record body whose extensions block ends one
byte before the declared message length parses successfully, but
re-serializing the parsed message does not reproduce the input: the ignored
trailing byte is dropped. -/
theorem parse_slack_counterexample :
    parseClientHello slackBuf = .ok (helloMsg, [7]) ∧
    (Marshal helloMsg).map (fun m => m.drop 5) ≠ some slackBuf := by
  constructor
  · have hb := parseClientHello_build 0x0303 (by omega) (List.replicate 32 0) [] [0, 0] [] [7]
      (by decide) (by decide) (by decide) (by decide) [] {} (parseExtLoop_nil {})
      slackBody (by decide) (by decide)
    have he : slackBuf = 0x01 :: (u24be slackBody.length ++ slackBody) := by decide
    rw [he]
    exact hb
  · decide

end ECH.V1

namespace ECH.V2

/-! ### Current ClientHello codec (`client_hello.go`, revision in
src/unnamed/part_002) and the ECH interceptor (`conn.go`, third revision in
src/unnamed/part_003).

Differences from the older revision: `parseClientHello` takes no key list,
reads the handshake body with `ReadUint24LengthPrefixed` (bytes after the
prefixed body are kept as `zeros`), does not check the compression methods,
collects the raw extensions first and derives the extension fields in a
separate `parseExtensions` pass, rejects `echExt.Type > 1` with
`IllegalParameter`, and when the ECH extension has type inner (1) requires
every byte after the handshake body to be zero. -/

/-- Go `echExt` (part_002): `Type`, `CipherSuite{KDF,AEAD}`, `ConfigID`,
`Enc`, `Payload`. -/
structure EchExt where
  Typ : Nat
  CipherSuite : ECH.CipherSuite := ⟨0, 0⟩
  ConfigID : Nat := 0
  Enc : List Nat := []
  Payload : List Nat := []
deriving DecidableEq, Repr

/-- Go `clientHello` (part_002), field for field. -/
structure ClientHello where
  LegacyVersion : Nat
  Random : List Nat
  LegacySessionID : List Nat
  CipherSuite : List Nat
  LegacyCompressionMethods : List Nat
  Extensions : List Extension
  ServerName : List Nat := []
  ALPNProtos : List (List Nat) := []
  hasECHOuterExtensions : Bool := false
  tls13 : Bool := false
  echExt : Option EchExt := none
deriving DecidableEq, Repr

/-- The fields reset and recomputed by `parseExtensions`. -/
structure Derived where
  ServerName : List Nat := []
  ALPNProtos : List (List Nat) := []
  hasECHOuterExtensions : Bool := false
  tls13 : Bool := false
  echExt : Option EchExt := none
deriving DecidableEq, Repr

/-- The ServerNameList loop: a name type byte (must be 0, else
`IllegalParameter`) and a u16-prefixed host name; a failed read or a second
non-empty name is a `DecodeError`. -/
def parseServerNames : List Nat → List Nat → Except EchError (List Nat)
  | [], acc => .ok acc
  | nameType :: rest, acc =>
    if nameType ≠ 0 then .error .illegalParameter
    else
      match h : readU16Prefixed rest with
      | none => .error .decodeError
      | some (hostName, rest') =>
        if acc ≠ [] then .error .decodeError
        else parseServerNames rest' hostName
termination_by l _ => l.length
decreasing_by
  simp only [List.length_cons]
  have := readU16Prefixed_length_lt h
  omega

/-- The ProtocolNameList loop: u8-prefixed protocol names. -/
def parseALPNList : List Nat → List (List Nat) → Except EchError (List (List Nat))
  | [], acc => .ok acc
  | x :: xs, acc =>
    match h : readU8Prefixed (x :: xs) with
    | none => .error .decodeError
    | some (p, rest) => parseALPNList rest (acc ++ [p])
termination_by l _ => l.length
decreasing_by
  have := readU8Prefixed_length_lt h
  simp only [List.length_cons] at *
  omega

/-- The supported_versions loop: u16 versions, any ≥ 0x0304 sets tls13. -/
def parseVersionsList : List Nat → Bool → Except EchError Bool
  | [], t => .ok t
  | a :: b :: r, t => parseVersionsList r (t || decide (0x0304 ≤ a * 256 + b))
  | _, _ => .error .decodeError

/-- The `case 0xfe0d` parse: type byte, `IllegalParameter` when > 1, and for
Outer (0) the cipher suite, config id, enc and payload. -/
def parseECHExt (data : List Nat) : Except EchError EchExt :=
  match readU8 data with
  | none => .error .decodeError
  | some (t, d1) =>
    if t > 1 then .error .illegalParameter
    else if t = 0 then
      match readU16 d1 with
      | none => .error .decodeError
      | some (kdf, d2) =>
        match readU16 d2 with
        | none => .error .decodeError
        | some (aead, d3) =>
          match readU8 d3 with
          | none => .error .decodeError
          | some (cid, d4) =>
            match readU16Prefixed d4 with
            | none => .error .decodeError
            | some (enc, d5) =>
              match readU16Prefixed d5 with
              | none => .error .decodeError
              | some (payload, _) =>
                .ok { Typ := t, CipherSuite := ⟨kdf, aead⟩, ConfigID := cid,
                      Enc := enc, Payload := payload }
    else .ok { Typ := t }

/-- The `switch ext.Type` body of `parseExtensions`. -/
def processExt (st : Derived) (ext : Extension) : Except EchError Derived :=
  match ext.Typ with
  | 0 =>
    match readU16Prefixed ext.Data with
    | none => .error .decodeError
    | some (serverNameList, _) =>
      match parseServerNames serverNameList st.ServerName with
      | .error e => .error e
      | .ok name => .ok { st with ServerName := name }
  | 16 =>
    match readU16Prefixed ext.Data with
    | none => .error .decodeError
    | some (protocolNameList, _) =>
      match parseALPNList protocolNameList st.ALPNProtos with
      | .error e => .error e
      | .ok protos => .ok { st with ALPNProtos := protos }
  | 43 =>
    match readU8Prefixed ext.Data with
    | none => .error .decodeError
    | some (versions, _) =>
      match parseVersionsList versions st.tls13 with
      | .error e => .error e
      | .ok t => .ok { st with tls13 := t }
  | 0xfd00 => .ok { st with hasECHOuterExtensions := true }
  | 0xfe0d =>
    match parseECHExt ext.Data with
    | .error e => .error e
    | .ok e => .ok { st with echExt := some e }
  | _ => .ok st

/-- The `for _, ext := range c.Extensions` fold of `parseExtensions`. -/
def processExts : List Extension → Derived → Except EchError Derived
  | [], st => .ok st
  | e :: r, st =>
    match processExt st e with
    | .error err => .error err
    | .ok st' => processExts r st'

/-- `clientHello.parseExtensions` (part_002): reset the derived fields and
recompute them from the raw extensions. -/
def parseExtensions (c : ClientHello) : Except EchError ClientHello :=
  match processExts c.Extensions {} with
  | .error e => .error e
  | .ok d =>
    .ok { c with
          ServerName := d.ServerName, ALPNProtos := d.ALPNProtos,
          hasECHOuterExtensions := d.hasECHOuterExtensions, tls13 := d.tls13,
          echExt := d.echExt }

/-- The raw extension collection loop of `parseClientHello`: type u16 and
u16-prefixed data, kept verbatim. -/
def rawExtLoop : List Nat → Except EchError (List Extension)
  | [] => .ok []
  | x :: xs =>
    match h0 : readU16 (x :: xs) with
    | none => .error .decodeError
    | some (t, r1) =>
      match h : readU16Prefixed r1 with
      | none => .error .decodeError
      | some (data, r2) => (rawExtLoop r2).map (⟨t, data⟩ :: ·)
termination_by l => l.length
decreasing_by
  have h1 := readU16Prefixed_length_lt h
  have h2 := readU16_length_eq h0
  simp only [List.length_cons] at *
  omega

/-- `parseClientHello` (part_002): handshake type, u24-length-prefixed body
(`zeros` is what follows it), the fixed fields with no compression-method
check, the raw extensions, `parseExtensions`, and the requirement that
`zeros` is all zero bytes when the ECH extension has type inner. -/
def parseClientHello (buf : List Nat) : Except EchError ClientHello :=
  match readU8 buf with
  | none => .error .decodeError
  | some (msgType, s0) =>
    if msgType ≠ 0x01 then .error .unexpectedMessage
    else
      match readU24Prefixed s0 with
      | none => .error .decodeError
      | some (ss, zeros) =>
        match readU16 ss with
        | none => .error .decodeError
        | some (legacyVersion, s1) =>
          match readBytes 32 s1 with
          | none => .error .decodeError
          | some (random, s2) =>
            match readU8Prefixed s2 with
            | none => .error .decodeError
            | some (sessionID, s3) =>
              match readU16Prefixed s3 with
              | none => .error .decodeError
              | some (cipherSuite, s4) =>
                match readU8Prefixed s4 with
                | none => .error .decodeError
                | some (compression, s5) =>
                  match readU16Prefixed s5 with
                  | none => .error .decodeError
                  | some (extBlock, _) =>
                    match rawExtLoop extBlock with
                    | .error e => .error e
                    | .ok exts =>
                      match parseExtensions
                          { LegacyVersion := legacyVersion, Random := random,
                            LegacySessionID := sessionID, CipherSuite := cipherSuite,
                            LegacyCompressionMethods := compression,
                            Extensions := exts } with
                      | .error e => .error e
                      | .ok hello =>
                        match hello.echExt with
                        | some e =>
                          if e.Typ = 1 then
                            if zeros.all (fun p => p == 0) then .ok hello
                            else .error .illegalParameter
                          else .ok hello
                        | none => .ok hello

/-- Encode one extension; in AAD mode the payload region of the 0xfe0d
extension is replaced by zero bytes of the same length (`pl` is the ech
payload length; the source dereferences `c.echExt` there). -/
def encodeExt (pl : Nat) (aad : Bool) (ext : Extension) : Option (List Nat) := do
  let inner := if aad ∧ ext.Typ = 0xfe0d then
      ext.Data.take (ext.Data.length - pl) ++
        List.replicate (ext.Data.length - (ext.Data.length - pl)) 0
    else ext.Data
  let d ← u16Pre inner
  pure (u16be ext.Typ ++ d)

def encodeExts (pl : Nat) (aad : Bool) : List Extension → Option (List Nat)
  | [] => some []
  | e :: r => do
    let h ← encodeExt pl aad e
    let t ← encodeExts pl aad r
    pure (h ++ t)

/-- `clientHello.marshal` (part_002): record header (0x16, version),
u16-prefixed handshake message (type 0x01, u24-prefixed body). -/
def marshal (c : ClientHello) (aad : Bool) : Option (List Nat) := do
  let sess ← u8Pre c.LegacySessionID
  let ciph ← u16Pre c.CipherSuite
  let comp ← u8Pre c.LegacyCompressionMethods
  let extBytes ← encodeExts ((c.echExt.map (·.Payload.length)).getD 0) aad c.Extensions
  let extBlock ← u16Pre extBytes
  let body := u16be c.LegacyVersion ++ c.Random ++ sess ++ ciph ++ comp ++ extBlock
  let hs ← u24Pre body
  let recBody ← u16Pre (0x01 :: hs)
  pure (0x16 :: (u16be c.LegacyVersion ++ recBody))

/-- `clientHello.Marshal`. -/
def Marshal (c : ClientHello) : Option (List Nat) := marshal c false

/-- `clientHello.marshalAAD`: serialize with the zeroed payload and strip the
9 header bytes. -/
def marshalAAD (c : ClientHello) : Option (List Nat) := (marshal c true).map (·.drop 9)

/-! ### The interceptor (`conn.go`, third revision in src/unnamed/part_003)

HPKE is treated as an oracle: `parsePriv` stands for
`hpke.ParseHPKEPrivateKey` succeeding, `setup` for `hpke.SetupReceipient`
succeeding, and `hpkeOpen` for `c.hpkeCtx.Open`.  The connection state keeps
only whether an HPKE context has been established (`hpkeCtx`); I/O plumbing
(deadlines, record framing, the retry counter) is outside the model, so
`NewConn` takes the first TLS record as a byte list and `handleClientHello`
takes the record and the retry flag, exactly as in the source. -/

/-- Go `Key`: a serialized ECH Config and its private key. -/
structure Key where
  Config : List Nat
  PrivateKey : List Nat
deriving DecidableEq, Repr

/-- The HPKE oracles. -/
structure Oracles where
  parsePriv : Nat → List Nat → Bool
  setup : Nat → ECH.CipherSuite → List Nat → List Nat → Bool
  hpkeOpen : List Nat → List Nat → Option (List Nat)

/-- The `Conn` fields relevant to ClientHello processing. -/
structure Conn where
  outer : Option ClientHello := none
  inner : Option ClientHello := none
  hpkeCtx : Bool := false
  keys : List Key := []
  readBuf : List Nat := []
  readPassthrough : Bool := false
  writePassthrough : Bool := false

/-- `Conn.ECHAccepted`. -/
def ECHAccepted (c : Conn) : Bool := c.inner.isSome

/-- The body of one `for _, key := range c.keys` iteration after the config
matched: require an HPKE context (else `IllegalParameter`), compute the AAD,
try to open the payload (failure skips to the next key), and check the
config's public name against the outer `ServerName`. -/
def openStep (po : Oracles) (h : ClientHello) (e : EchExt) (cfg : ConfigSpec)
    (ctx : Bool) (ib : Option (List Nat)) : Except EchError (Bool × Option (List Nat)) :=
  if ¬ctx then .error .illegalParameter
  else
    match marshalAAD h with
    | none => .error .other
    | some aad =>
      match po.hpkeOpen aad e.Payload with
      | none => .ok (ctx, ib)
      | some bytes =>
        if cfg.PublicName ≠ h.ServerName then .error .illegalParameter
        else .ok (ctx, some bytes)

/-- One `for _, key := range c.keys` iteration: parse the config (failure
skips the key), match `ID` and the cipher suite, set up HPKE when there is
no context yet and `enc` is non-empty (a bad private key aborts, a failed
setup skips the key). -/
def keyStep (po : Oracles) (h : ClientHello) (e : EchExt) (key : Key)
    (ctx : Bool) (ib : Option (List Nat)) : Except EchError (Bool × Option (List Nat)) :=
  match ECH.Config.Spec key.Config with
  | none => .ok (ctx, ib)
  | some cfg =>
    if cfg.ID = e.ConfigID ∧ e.CipherSuite ∈ cfg.CipherSuites then
      if ¬ctx ∧ 0 < e.Enc.length then
        if po.parsePriv cfg.KEM key.PrivateKey then
          if po.setup cfg.KEM e.CipherSuite key.Config e.Enc then
            openStep po h e cfg true ib
          else .ok (ctx, ib)
        else .error .other
      else openStep po h e cfg ctx ib
    else .ok (ctx, ib)

/-- The key loop, threading the HPKE-context flag and the decrypted inner
bytes (a later key may overwrite them, as in the source). -/
def keyLoop (po : Oracles) (h : ClientHello) (e : EchExt) :
    List Key → Bool → Option (List Nat) → Except EchError (Bool × Option (List Nat))
  | [], ctx, ib => .ok (ctx, ib)
  | key :: rest, ctx, ib =>
    match keyStep po h e key ctx ib with
    | .error err => .error err
    | .ok (ctx', ib') => keyLoop po h e rest ctx' ib'

/-- Decoding and validating the decrypted inner ClientHello: wrap the bytes
in a handshake header, parse, require an ech extension of type inner, copy
the outer legacy_session_id, expand ech_outer_extensions against the outer
extensions, re-derive the extension fields and require TLS 1.3. -/
def decodeInner (outer : ClientHello) (innerBytes : List Nat) :
    Except EchError (Option ClientHello) :=
  match u24Pre innerBytes with
  | none => .error .other
  | some hs =>
    match parseClientHello (0x01 :: hs) with
    | .error err => .error err
    | .ok inner0 =>
      match inner0.echExt with
      | none => .error .illegalParameter
      | some ie =>
        if ie.Typ ≠ 1 then .error .illegalParameter
        else
          let inner1 := { inner0 with LegacySessionID := outer.LegacySessionID }
          match ECH.expandOuterExtensions outer.Extensions inner1.Extensions false with
          | .error err => .error err
          | .ok newExt =>
            match parseExtensions { inner1 with Extensions := newExt } with
            | .error err => .error err
            | .ok inner3 =>
              if ¬inner3.tls13 then .error .illegalParameter
              else .ok (some inner3)

/-- The body of `processEncryptedClientHello` after the retry pre-checks:
the passthrough guard, the key loop, the no-match/decrypt-error outcome and
the inner decoding.  The second component is the updated `c.hpkeCtx`. -/
def processECHMain (po : Oracles) (c : Conn) (h : ClientHello) (isRetry : Bool) :
    Except EchError (Option ClientHello) × Bool :=
  if ¬h.tls13 ∨ h.echExt = none ∨ c.keys = [] then (.ok none, c.hpkeCtx)
  else
    match h.echExt with
    | none => (.ok none, c.hpkeCtx)
    | some e =>
      match keyLoop po h e c.keys c.hpkeCtx none with
      | .error err => (.error err, c.hpkeCtx)
      | .ok (ctx', none) =>
        ((if isRetry then .error .decryptError else .error .noMatch), ctx')
      | .ok (ctx', some innerBytes) => (decodeInner h innerBytes, ctx')

/-- `processEncryptedClientHello` (part_003, third revision): on a retry,
first require an ech extension (`MissingExtension`) whose config id and
cipher suite equal the stored outer's and whose `enc` is empty
(`IllegalParameter`); then the main body. -/
def processEncryptedClientHello (po : Oracles) (c : Conn) (h : ClientHello)
    (isRetry : Bool) : Except EchError (Option ClientHello) × Bool :=
  if isRetry then
    match h.echExt with
    | none => (.error .missingExtension, c.hpkeCtx)
    | some e =>
      if ((c.outer.bind fun o => o.echExt).map fun oe => oe.ConfigID) ≠ some e.ConfigID ∨
          ((c.outer.bind fun o => o.echExt).map fun oe => oe.CipherSuite) ≠
            some e.CipherSuite ∨
          0 < e.Enc.length then (.error .illegalParameter, c.hpkeCtx)
      else processECHMain po c h isRetry
  else processECHMain po c h isRetry

/-- The retry post-check of `handleClientHello`: on a retry the decoded
inner must exist, carry an ech extension, and agree with the stored first
inner on `ServerName` and `ALPNProtos`. -/
def retryGate (c : Conn) (outer : ClientHello) (inner : Option ClientHello)
    (ctx' : Bool) (isRetry : Bool) :
    Except EchError (ClientHello × Option ClientHello × Bool) :=
  if isRetry then
    match inner with
    | none => .error .illegalParameter
    | some i =>
      if i.echExt = none then .error .illegalParameter
      else if (c.inner.map fun ci => ci.ServerName) ≠ some i.ServerName ∨
          (c.inner.map fun ci => ci.ALPNProtos) ≠ some i.ALPNProtos then
        .error .illegalParameter
      else .ok (outer, inner, ctx')
  else .ok (outer, inner, ctx')

/-- `handleClientHello` (part_003, third revision): parse the record
payload, reject `ech_outer_extensions` in the outer hello, reject an ech
extension of type inner when keys are configured, process the encrypted
hello (`errNoMatch` is swallowed, leaving no inner) and apply the retry
post-check. -/
def handleClientHello (po : Oracles) (c : Conn) (record : List Nat) (isRetry : Bool) :
    Except EchError (ClientHello × Option ClientHello × Bool) :=
  match parseClientHello (record.drop 5) with
  | .error e => .error e
  | .ok outer =>
    if outer.hasECHOuterExtensions then .error .illegalParameter
    else if c.keys ≠ [] ∧ (outer.echExt.map fun e => e.Typ) = some 1 then
      .error .illegalParameter
    else
      match processEncryptedClientHello po c outer isRetry with
      | (.error .noMatch, ctx') => retryGate c outer none ctx' isRetry
      | (.error err, _) => .error err
      | (.ok inner, ctx') => retryGate c outer inner ctx' isRetry

/-- `NewConn` (part_003, third revision), reduced to the first record's
processing: require a handshake record (content type 22), handle the first
ClientHello (not a retry), set the passthrough flags when there is no inner
hello, and buffer the re-serialized inner (or outer) hello for the TLS
stack. -/
def NewConn (po : Oracles) (keys : List Key) (record : List Nat) : Except EchError Conn :=
  if record.getD 0 0 ≠ 22 then .error .unexpectedMessage
  else
    match handleClientHello po { keys := keys } record false with
    | .error e => .error e
    | .ok (outer, inner, ctx') =>
      match (match inner with | some i => Marshal i | none => Marshal outer) with
      | none => .error .other
      | some m =>
        .ok { keys := keys, outer := some outer, inner := inner, hpkeCtx := ctx',
              readPassthrough := inner.isNone, writePassthrough := inner.isNone,
              readBuf := m }

/-- **C3.** For every initial ClientHello record accepted by `NewConn`: if
the outer ClientHello does not offer TLS 1.3, or carries no
encrypted_client_hello extension, or the configured key list is empty, then
no inner ClientHello is produced (`ECHAccepted` is false), both read and
write directions are set to passthrough, and the bytes buffered for the TLS
stack are the re-serialized outer ClientHello. -/
theorem newConn_passthrough (po : Oracles) (keys : List Key) (record : List Nat)
    (c : Conn) (hok : NewConn po keys record = .ok c)
    (outer : ClientHello) (houter : parseClientHello (record.drop 5) = .ok outer)
    (hguard : ¬outer.tls13 ∨ outer.echExt = none ∨ keys = []) :
    c.inner = none ∧ ECHAccepted c = false ∧ c.readPassthrough = true ∧
      c.writePassthrough = true ∧ Marshal outer = some c.readBuf ∧ c.outer = some outer := by
  unfold NewConn at hok
  split at hok
  · cases hok
  rename_i hrec22
  split at hok
  · cases hok
  rename_i outer' inner' ctx' hhand
  split at hok
  · cases hok
  rename_i m hm
  cases hok
  unfold handleClientHello at hhand
  rw [houter] at hhand
  dsimp only at hhand
  split at hhand
  · cases hhand
  rename_i hEOE
  split at hhand
  · cases hhand
  rename_i hTypeInner
  rw [show processEncryptedClientHello po { keys := keys } outer false = (.ok none, false) from by
    unfold processEncryptedClientHello processECHMain
    rw [if_neg Bool.false_ne_true]
    dsimp only
    rw [if_pos hguard]] at hhand
  dsimp only at hhand
  rw [show retryGate { keys := keys } outer none false false = .ok (outer, none, false) from by
    unfold retryGate
    rw [if_neg Bool.false_ne_true]] at hhand
  cases hhand
  dsimp only at hm
  exact ⟨rfl, rfl, rfl, rfl, hm.symm ▸ rfl, rfl⟩

theorem rawExtLoop_nil : rawExtLoop [] = .ok [] := by
  rw [rawExtLoop]

/-- Evaluating `parseClientHello` on a record payload assembled from its
parts; `slack` is ignored material between the extensions block and the end
of the u24-prefixed body, `zeros` the bytes after the body. -/
theorem parseClientHello_eval (LV : Nat) (hLV : LV < 65536)
    (random sess ciph comp EB slack zeros : List Nat)
    (hr : random.length = 32) (hsl : sess.length < 256) (hcl : ciph.length < 65536)
    (hcompl : comp.length < 256) (hEBl : EB.length < 65536)
    (exts : List Extension) (hloop : rawExtLoop EB = .ok exts)
    (d : Derived) (hpe : processExts exts {} = .ok d)
    (B : List Nat) (hsize : B.length < 16777216)
    (hB : B = u16be LV ++ (random ++ ((sess.length :: sess) ++ ((u16be ciph.length ++ ciph) ++
      ((comp.length :: comp) ++ ((u16be EB.length ++ EB) ++ slack))))))
    (hz : ∀ e, d.echExt = some e → e.Typ = 1 → zeros.all (fun p => p == 0) = true) :
    parseClientHello (0x01 :: ((u24be B.length ++ B) ++ zeros)) = .ok
      { LegacyVersion := LV, Random := random, LegacySessionID := sess,
        CipherSuite := ciph, LegacyCompressionMethods := comp, Extensions := exts,
        ServerName := d.ServerName, ALPNProtos := d.ALPNProtos,
        hasECHOuterExtensions := d.hasECHOuterExtensions, tls13 := d.tls13,
        echExt := d.echExt } := by
  unfold parseClientHello
  rw [show readU8 (0x01 :: ((u24be B.length ++ B) ++ zeros)) =
      some (0x01, (u24be B.length ++ B) ++ zeros) from rfl]
  dsimp only
  rw [if_neg (by omega)]
  rw [readU24Prefixed_u24Pre B (u24be B.length ++ B) zeros
      (by unfold u24Pre; rw [if_pos hsize])]
  dsimp only
  rw [hB]
  rw [readU16_u16be LV hLV]
  dsimp only
  rw [V1.readBytes_of_len random _ hr]
  dsimp only
  rw [readU8Prefixed_u8Pre sess _ _ (by unfold u8Pre; rw [if_pos hsl])]
  dsimp only
  rw [readU16Prefixed_u16Pre ciph _ _ (by unfold u16Pre; rw [if_pos hcl])]
  dsimp only
  rw [readU8Prefixed_u8Pre comp _ _ (by unfold u8Pre; rw [if_pos hcompl])]
  dsimp only
  rw [readU16Prefixed_u16Pre EB _ slack (by unfold u16Pre; rw [if_pos hEBl])]
  dsimp only
  rw [hloop]
  dsimp only
  rw [show parseExtensions
      { LegacyVersion := LV, Random := random, LegacySessionID := sess,
        CipherSuite := ciph, LegacyCompressionMethods := comp, Extensions := exts } =
      .ok
      { LegacyVersion := LV, Random := random, LegacySessionID := sess,
        CipherSuite := ciph, LegacyCompressionMethods := comp, Extensions := exts,
        ServerName := d.ServerName, ALPNProtos := d.ALPNProtos,
        hasECHOuterExtensions := d.hasECHOuterExtensions, tls13 := d.tls13,
        echExt := d.echExt } from by
    unfold parseExtensions
    dsimp only
    rw [hpe]]
  dsimp only
  rcases hde : d.echExt with _ | e
  · rfl
  · dsimp only
    by_cases ht : e.Typ = 1
    · rw [if_pos ht, if_pos (hz e hde ht)]
    · rw [if_neg ht]

/-- HPKE oracles that always fail (never used on the passthrough path). -/
def po0 : Oracles := ⟨fun _ _ => false, fun _ _ _ _ => false, fun _ _ => none⟩

/-- The handshake body of `record0`. -/
def body0 : List Nat := [3, 3] ++ List.replicate 32 0 ++ [0, 0, 2, 0, 0, 1, 0, 0, 0]

/-- A TLS handshake record with a minimal ClientHello: not TLS 1.3, no
extensions, no keys configured. -/
def record0 : List Nat := [22, 3, 1, 0, 47, 0x01, 0, 0, 43] ++ body0

/-- The hello `record0` carries. -/
def outer0 : ClientHello :=
  { LegacyVersion := 0x0303, Random := List.replicate 32 0, LegacySessionID := [],
    CipherSuite := [0, 0], LegacyCompressionMethods := [0], Extensions := [] }

/-- `Marshal outer0`. -/
def m0 : List Nat := [22, 3, 3, 0, 47, 1, 0, 0, 43] ++ body0

/-- The connection `NewConn` builds from `record0`. -/
def conn0 : Conn :=
  { outer := some outer0, inner := none, hpkeCtx := false, keys := [],
    readBuf := m0, readPassthrough := true, writePassthrough := true }

/-- Witness for C3 at `record0` with an empty key list. -/
theorem newConn_passthrough_witness :
    ∃ c, NewConn po0 [] record0 = .ok c ∧ c.inner = none ∧ ECHAccepted c = false ∧
      c.readPassthrough = true ∧ c.writePassthrough = true ∧
      Marshal outer0 = some c.readBuf ∧ c.outer = some outer0 := by
  have houter0 : parseClientHello (record0.drop 5) = .ok outer0 := by
    have hb := parseClientHello_eval 0x0303 (by omega) (List.replicate 32 0) [] [0, 0] [0]
      [] [] [] (by decide) (by decide) (by decide) (by decide) (by decide)
      [] rawExtLoop_nil {} rfl body0 (by decide) (by decide) (fun e he _ => nomatch he)
    rw [show record0.drop 5 = 0x01 :: ((u24be body0.length ++ body0) ++ []) from by decide]
    exact hb
  have hok0 : NewConn po0 [] record0 = .ok conn0 := by
    unfold NewConn
    rw [if_neg (by decide)]
    rw [show handleClientHello po0 { keys := [] } record0 false =
        .ok (outer0, none, false) from by
      unfold handleClientHello
      rw [houter0]
      dsimp only
      rw [if_neg (by decide), if_neg (by decide)]
      rw [show processEncryptedClientHello po0 { keys := [] } outer0 false =
          (.ok none, false) from by
        unfold processEncryptedClientHello processECHMain
        rw [if_neg Bool.false_ne_true, if_pos (by decide)]]
      dsimp only
      unfold retryGate
      rw [if_neg Bool.false_ne_true]]
    dsimp only
    rw [show Marshal outer0 = some m0 from by decide]
    rfl
  obtain ⟨h1, h2, h3, h4, h5, h6⟩ := newConn_passthrough po0 [] record0 conn0 hok0 outer0
    houter0 (Or.inr (Or.inr rfl))
  exact ⟨conn0, hok0, h1, h2, h3, h4, h5, h6⟩

/-- **C4.** For every retried ClientHello record (processed with
`isRetry = true`): (1) if its ECH extension's config id or cipher suite
differs from the first outer ClientHello's, or its `enc` field is
non-empty, the interceptor fails with `IllegalParameter`; (2) if the
decoded retried inner ClientHello's `ServerName` or `ALPNProtos` differ
from the stored first inner's, the interceptor fails with
`IllegalParameter`. -/
theorem handleClientHello_retry_checks (po : Oracles) (c : Conn) (record : List Nat)
    (h : ClientHello) (hparse : parseClientHello (record.drop 5) = .ok h) :
    (∀ e, h.echExt = some e →
      (((c.outer.bind fun o => o.echExt).map fun oe => oe.ConfigID) ≠ some e.ConfigID ∨
       ((c.outer.bind fun o => o.echExt).map fun oe => oe.CipherSuite) ≠ some e.CipherSuite ∨
       e.Enc ≠ []) →
      handleClientHello po c record true = .error .illegalParameter) ∧
    (∀ i ctx', processEncryptedClientHello po c h true = (.ok (some i), ctx') →
      ((c.inner.map fun ci => ci.ServerName) ≠ some i.ServerName ∨
       (c.inner.map fun ci => ci.ALPNProtos) ≠ some i.ALPNProtos) →
      handleClientHello po c record true = .error .illegalParameter) := by
  by_cases hEOE : h.hasECHOuterExtensions = true
  · constructor
    · intro e he hmis
      unfold handleClientHello
      rw [hparse]
      dsimp only
      rw [if_pos hEOE]
    · intro i ctx' hproc hmis
      unfold handleClientHello
      rw [hparse]
      dsimp only
      rw [if_pos hEOE]
  by_cases hTI : c.keys ≠ [] ∧ (h.echExt.map fun e => e.Typ) = some 1
  · constructor
    · intro e he hmis
      unfold handleClientHello
      rw [hparse]
      dsimp only
      rw [if_neg hEOE, if_pos hTI]
    · intro i ctx' hproc hmis
      unfold handleClientHello
      rw [hparse]
      dsimp only
      rw [if_neg hEOE, if_pos hTI]
  constructor
  · intro e he hmis
    unfold handleClientHello
    rw [hparse]
    dsimp only
    rw [if_neg hEOE, if_neg hTI]
    have hcond : ((c.outer.bind fun o => o.echExt).map fun oe => oe.ConfigID) ≠
          some e.ConfigID ∨
        ((c.outer.bind fun o => o.echExt).map fun oe => oe.CipherSuite) ≠
          some e.CipherSuite ∨
        0 < e.Enc.length := by
      rcases hmis with h1 | h2 | h3
      · exact Or.inl h1
      · exact Or.inr (Or.inl h2)
      · exact Or.inr (Or.inr (List.length_pos.mpr h3))
    rw [show processEncryptedClientHello po c h true =
        (.error .illegalParameter, c.hpkeCtx) from by
      unfold processEncryptedClientHello
      rw [if_pos rfl, he]
      dsimp only
      rw [if_pos hcond]]
  · intro i ctx' hproc hmis
    unfold handleClientHello
    rw [hparse]
    dsimp only
    rw [if_neg hEOE, if_neg hTI, hproc]
    dsimp only
    unfold retryGate
    rw [if_pos rfl]
    dsimp only
    by_cases hie : i.echExt = none
    · rw [if_pos hie]
    · rw [if_neg hie, if_pos hmis]

theorem rawExtLoop_encode : ∀ (exts : List Extension),
    (∀ e ∈ exts, e.Typ < 65536 ∧ e.Data.length < 65536) →
    rawExtLoop (V1.extsEncoding exts) = .ok exts := by
  intro exts
  induction exts with
  | nil =>
    intro _
    rw [show V1.extsEncoding [] = [] from rfl, rawExtLoop]
  | cons e r ih =>
    intro hb
    obtain ⟨ht, hdl⟩ := hb e (by simp)
    have henc : V1.extsEncoding (e :: r) =
        e.Typ / 256 :: e.Typ % 256 :: ((u16be e.Data.length ++ e.Data) ++ V1.extsEncoding r) := by
      unfold V1.extsEncoding
      simp [List.append_assoc, u16be_eq e.Typ ht]
    rw [henc, rawExtLoop]
    split
    · rename_i h16
      rw [readU16] at h16
      cases h16
    rename_i t r1 h16
    rw [readU16] at h16
    have hteq : e.Typ / 256 * 256 + e.Typ % 256 = e.Typ := by omega
    rw [hteq] at h16
    cases h16
    split
    · rename_i hpre
      rw [readU16Prefixed_u16Pre e.Data (u16be e.Data.length ++ e.Data) (V1.extsEncoding r)
        (by unfold u16Pre; rw [if_pos hdl])] at hpre
      cases hpre
    rename_i data r2 hpre
    rw [readU16Prefixed_u16Pre e.Data (u16be e.Data.length ++ e.Data) (V1.extsEncoding r)
      (by unfold u16Pre; rw [if_pos hdl])] at hpre
    cases hpre
    rw [ih (fun y hy => hb y (by simp [hy]))]
    rfl

/-- A supported_versions extension offering TLS 1.3. -/
def e43 : Extension := ⟨43, [2, 3, 4]⟩

/-- An outer encrypted_client_hello extension: type Outer, suite (1,3),
config id 7, empty enc, 1-byte payload. -/
def echData0 : List Nat := [0, 0, 1, 0, 3, 7, 0, 0, 0, 1, 9]

def eEch0 : Extension := ⟨0xfe0d, echData0⟩

def eR : EchExt := { Typ := 0, CipherSuite := ⟨1, 3⟩, ConfigID := 7, Enc := [], Payload := [9] }

/-- The handshake body of the retried outer ClientHello. -/
def outerBody : List Nat := [3, 3] ++ List.replicate 32 0 ++ [0] ++ [0, 2, 0, 0] ++ [1, 0] ++
  ([0, 22] ++ V1.extsEncoding [e43, eEch0])

/-- The retried ClientHello record. -/
def recordR : List Nat := [22, 3, 3, 0, 69] ++ ([0x01, 0, 0, 65] ++ outerBody)

/-- The hello `recordR` carries. -/
def outerR : ClientHello :=
  { LegacyVersion := 0x0303, Random := List.replicate 32 0, LegacySessionID := [],
    CipherSuite := [0, 0], LegacyCompressionMethods := [0], Extensions := [e43, eEch0],
    ServerName := [], ALPNProtos := [], hasECHOuterExtensions := false, tls13 := true,
    echExt := some eR }

def dR : Derived :=
  { ServerName := [], ALPNProtos := [], hasECHOuterExtensions := false, tls13 := true,
    echExt := some eR }

/-- A serialized ECH Config: version 0xfe0d, id 7, KEM 0x0020, empty public
key, one cipher suite (1,3), empty public name. -/
def cfgBytes : List Nat := [254, 13, 0, 13, 7, 0, 32, 0, 0, 0, 4, 0, 1, 0, 3, 0, 0]

def key1 : Key := { Config := cfgBytes, PrivateKey := [] }

/-- An inner encrypted_client_hello extension (type inner). -/
def iEch : Extension := ⟨0xfe0d, [1]⟩

/-- The decrypted inner ClientHello body. -/
def innerBody : List Nat := [3, 3] ++ List.replicate 32 0 ++ [0] ++ [0, 2, 0, 0] ++ [1, 0] ++
  ([0, 12] ++ V1.extsEncoding [e43, iEch])

/-- The decoded inner hello. -/
def innerDec : ClientHello :=
  { LegacyVersion := 0x0303, Random := List.replicate 32 0, LegacySessionID := [],
    CipherSuite := [0, 0], LegacyCompressionMethods := [0], Extensions := [e43, iEch],
    ServerName := [], ALPNProtos := [], hasECHOuterExtensions := false, tls13 := true,
    echExt := some { Typ := 1 } }

def dI : Derived := { tls13 := true, echExt := some { Typ := 1 } }

/-- The stored first inner hello, with a different server name. -/
def storedInner : ClientHello :=
  { LegacyVersion := 0x0303, Random := List.replicate 32 0, LegacySessionID := [],
    CipherSuite := [0, 0], LegacyCompressionMethods := [0], Extensions := [],
    ServerName := [120] }

/-- Oracles for which HPKE always succeeds and decrypts to `innerBody`. -/
def po1 : Oracles := ⟨fun _ _ => true, fun _ _ _ _ => true, fun _ _ => some innerBody⟩

/-- The stored outer of the mismatch scenario: config id 9 instead of 7. -/
def outerMis : ClientHello :=
  { outerR with
    echExt := some { Typ := 0, CipherSuite := ⟨1, 3⟩, ConfigID := 9, Enc := [], Payload := [9] } }

def cMis : Conn :=
  { outer := some outerMis, inner := some storedInner, hpkeCtx := true, keys := [key1] }

def cB : Conn :=
  { outer := some outerR, inner := some storedInner, hpkeCtx := true, keys := [key1] }

theorem parse_recordR : parseClientHello (recordR.drop 5) = .ok outerR := by
  have hb := parseClientHello_eval 0x0303 (by omega) (List.replicate 32 0) [] [0, 0] [0]
    (V1.extsEncoding [e43, eEch0]) [] [] (by decide) (by decide) (by decide) (by decide)
    (by decide) [e43, eEch0] (rawExtLoop_encode [e43, eEch0] (by decide)) dR rfl
    outerBody (by decide) (by decide) (fun e he ht => rfl)
  rw [show recordR.drop 5 =
      0x01 :: ((u24be outerBody.length ++ outerBody) ++ []) from by decide]
  exact hb

theorem parse_innerBody :
    parseClientHello (0x01 :: ((u24be innerBody.length ++ innerBody) ++ [])) = .ok innerDec := by
  have hb := parseClientHello_eval 0x0303 (by omega) (List.replicate 32 0) [] [0, 0] [0]
    (V1.extsEncoding [e43, iEch]) [] [] (by decide) (by decide) (by decide) (by decide)
    (by decide) [e43, iEch] (rawExtLoop_encode [e43, iEch] (by decide)) dI rfl
    innerBody (by decide) (by decide) (fun e he ht => rfl)
  exact hb

theorem decode_innerBody : decodeInner outerR innerBody = .ok (some innerDec) := by
  unfold decodeInner
  rw [show u24Pre innerBody = some (u24be innerBody.length ++ innerBody) from by
    unfold u24Pre; rw [if_pos (by decide)]]
  dsimp only
  rw [show (0x01 :: (u24be innerBody.length ++ innerBody)) =
      0x01 :: ((u24be innerBody.length ++ innerBody) ++ []) from by simp, parse_innerBody]
  rfl

theorem proc_cB : processEncryptedClientHello po1 cB outerR true = (.ok (some innerDec), true) := by
  have h1 : processEncryptedClientHello po1 cB outerR true =
      (decodeInner outerR innerBody, true) := rfl
  rw [h1, decode_innerBody]

/-- Witness for C4: a retried record whose ECH config id differs from the
stored outer's fails with IllegalParameter, and one that decrypts to an
inner hello whose server name differs from the stored first inner's also
fails with IllegalParameter. -/
theorem handleClientHello_retry_checks_witness :
    handleClientHello po1 cMis recordR true = .error .illegalParameter ∧
    handleClientHello po1 cB recordR true = .error .illegalParameter := by
  obtain ⟨hA, _⟩ := handleClientHello_retry_checks po1 cMis recordR outerR parse_recordR
  obtain ⟨_, hB2⟩ := handleClientHello_retry_checks po1 cB recordR outerR parse_recordR
  exact ⟨hA eR rfl (Or.inl (by decide)), hB2 innerDec true proc_cB (Or.inl (by decide))⟩

end ECH.V2
